import Mathlib

/-!
# Verification of the neat-go NEAT implementation

A shallow embedding of the Go sources (`neat/genes.go`, `neat/genome.go`,
`neat/activations.go`, the stagnation and reproduction code, and
`neat/nn/feedforward.go`) together with proofs about the embedded
operations.

Modelling conventions:
* `float64` is modelled by `ℚ`; all arithmetic appearing in the verified
  paths (`+`, `-`, `*`, `/`, `abs`, `min`, `max`, rounding) is exact on the
  concrete values considered, so the rational model is faithful there.
  The only non-finite values the code manufactures are `math.Inf(-1)` in
  the stagnation bookkeeping, modelled by the dedicated type `GoFloat`.
* Go's global PRNG (`math/rand`) is modelled by an explicit `Rng` state
  holding the streams of values the generator would produce; every theorem
  quantifies over the streams.  `rand.Float64`/`rand.NormFloat64` draw from
  `floats`, `rand.Intn n` reduces the next element of `ints` modulo `n`.
* Go maps are modelled by association lists; the (unspecified) iteration
  order of a Go map is the list order, which the theorems quantify over.
-/

/-- Stream of pseudo-random values, standing for Go's `math/rand` state. -/
structure Rng where
  floats : List ℚ
  ints : List ℕ
deriving DecidableEq

/-- `rand.Float64()` / `rand.NormFloat64()`: take the next float draw
(0 once the modelled stream is exhausted). -/
def Rng.nextFloat : Rng → ℚ × Rng
  | ⟨[], is⟩ => (0, ⟨[], is⟩)
  | ⟨f :: fs, is⟩ => (f, ⟨fs, is⟩)

/-- `rand.Intn n`: the next int draw reduced mod `n` (callers pass `n > 0`). -/
def Rng.nextIntn (n : ℕ) : Rng → ℕ × Rng
  | ⟨fs, []⟩ => (0, ⟨fs, []⟩)
  | ⟨fs, i :: is⟩ => (i % n, ⟨fs, is⟩)

/-- `clamp` from `math_util.go`: `math.Max(minVal, math.Min(value, maxVal))`. -/
def clamp (value minVal maxVal : ℚ) : ℚ :=
  max minVal (min value maxVal)

/-- Go's `math.Round` (half away from zero), composed with the `int(...)`
conversion applied to it in `computeSpawnAmounts`. -/
def goRound (q : ℚ) : ℤ :=
  if 0 ≤ q then ⌊q + 1/2⌋ else ⌈q - 1/2⌉

/-- `Sum` from `math_util.go`. -/
def goSum (values : List ℚ) : ℚ :=
  values.foldl (· + ·) 0

/-- `Mean` from `math_util.go` (empty slice yields `0`). -/
def goMean (values : List ℚ) : ℚ :=
  if values.length = 0 then 0 else goSum values / values.length

/-- A Go `float64` that is either finite or `math.Inf(-1)`; the stagnation
code stores `-∞` for species without members / empty histories. -/
inductive GoFloat where
  | ninf : GoFloat
  | fin : ℚ → GoFloat
deriving DecidableEq

/-- Strict `>` on `GoFloat` (`-∞` is below every finite value). -/
def GoFloat.gt : GoFloat → GoFloat → Bool
  | .fin q, .fin r => q > r
  | .fin _, .ninf => true
  | .ninf, _ => false

/-- Non-strict `≤` on `GoFloat`, used for the ascending fitness sort. -/
def GoFloat.leB : GoFloat → GoFloat → Bool
  | .ninf, _ => true
  | .fin _, .ninf => false
  | .fin q, .fin r => q ≤ r

/-- `MaxFloat` from `math_util.go` on values that may be `-∞`
(empty slice yields `-∞`, matching `math.Inf(-1)`). -/
def MaxFloatG : List GoFloat → GoFloat
  | [] => .ninf
  | x :: xs => xs.foldl (fun a b => if GoFloat.gt b a then b else a) x

section AssocList

variable {κ : Type} {α : Type} [DecidableEq κ]

/-- Association-list lookup, modelling `v, ok := m[k]` on a Go map. -/
def alookup (k : κ) : List (κ × α) → Option α
  | [] => none
  | p :: l => if p.1 = k then some p.2 else alookup k l

/-- Replace the value stored at key `k` (no-op on other entries),
modelling an in-place write through a pointer held in a Go map. -/
def aupdate (k : κ) (f : α → α) (l : List (κ × α)) : List (κ × α) :=
  l.map (fun p => if p.1 = k then (p.1, f p.2) else p)

/-- `m[k] = v` on a Go map: overwrite if present, else append. -/
def ainsert (k : κ) (v : α) (l : List (κ × α)) : List (κ × α) :=
  if (alookup k l).isSome then aupdate k (fun _ => v) l else l ++ [(k, v)]

/-- The keys of an association list are pairwise distinct. -/
def NodupKeys (l : List (κ × α)) : Prop :=
  (l.map Prod.fst).Nodup

theorem alookup_eq_none {k : κ} {l : List (κ × α)} :
    alookup k l = none ↔ k ∉ l.map Prod.fst := by
  induction l with
  | nil => simp [alookup]
  | cons p l ih =>
    by_cases h : p.1 = k
    · subst h
      simp [alookup]
    · simp only [alookup, h, if_neg, not_false_iff, List.map_cons,
        List.mem_cons, ih]
      constructor
      · rintro hk (h1 | h2)
        · exact h h1.symm
        · exact hk h2
      · intro hk h2
        exact hk (Or.inr h2)

theorem alookup_isSome {k : κ} {l : List (κ × α)} :
    (alookup k l).isSome ↔ k ∈ l.map Prod.fst := by
  rw [Option.isSome_iff_ne_none]
  constructor
  · intro h
    by_contra hk
    exact h (alookup_eq_none.mpr hk)
  · intro h hc
    exact alookup_eq_none.mp hc h

theorem alookup_of_mem {l : List (κ × α)} (hn : NodupKeys l)
    {p : κ × α} (hp : p ∈ l) : alookup p.1 l = some p.2 := by
  induction l with
  | nil => simp at hp
  | cons q l ih =>
    rcases List.mem_cons.mp hp with rfl | hp
    · simp [alookup]
    · have hq : ¬ q.1 = p.1 := by
        intro h
        have hm : q.1 ∈ l.map Prod.fst := by
          rw [h]
          exact List.mem_map_of_mem Prod.fst hp
        exact (List.nodup_cons.mp hn).1 hm
      simpa [alookup, hq] using ih (List.nodup_cons.mp hn).2 hp

theorem mem_alookup {k : κ} {v : α} {l : List (κ × α)}
    (h : alookup k l = some v) : (k, v) ∈ l := by
  induction l with
  | nil => simp [alookup] at h
  | cons p l ih =>
    by_cases hp : p.1 = k
    · simp only [alookup, hp, if_pos, Option.some.injEq] at h
      obtain ⟨p1, p2⟩ := p
      simp only at hp h
      subst hp
      subst h
      exact List.mem_cons_self _ _
    · simp only [alookup, hp, if_neg, not_false_iff] at h
      exact List.mem_cons_of_mem _ (ih h)

theorem mem_aupdate {k : κ} {f : α → α} {l : List (κ × α)} {p : κ × α}
    (hp : p ∈ aupdate k f l) : p ∈ l ∨ ∃ v, (k, v) ∈ l ∧ p = (k, f v) := by
  unfold aupdate at hp
  rcases List.mem_map.mp hp with ⟨q, hq, hqe⟩
  by_cases h : q.1 = k
  · right
    refine ⟨q.2, ?_, ?_⟩
    · obtain ⟨q1, q2⟩ := q
      simp only at h
      subst h
      exact hq
    · simp only [h, if_pos] at hqe
      exact hqe.symm
  · left
    simp only [h, if_neg, not_false_iff] at hqe
    exact hqe ▸ hq

theorem mem_ainsert {k : κ} {v : α} {l : List (κ × α)} {p : κ × α}
    (hp : p ∈ ainsert k v l) : p ∈ l ∨ p = (k, v) := by
  unfold ainsert at hp
  by_cases h : (alookup k l).isSome
  · simp only [h, if_pos] at hp
    rcases mem_aupdate hp with h1 | ⟨w, _, h2⟩
    · exact Or.inl h1
    · exact Or.inr h2
  · rw [if_neg h] at hp
    simpa [List.mem_append] using hp

theorem alookup_aupdate_self {k : κ} {f : α → α} {l : List (κ × α)} :
    alookup k (aupdate k f l) = (alookup k l).map f := by
  induction l with
  | nil => simp [alookup, aupdate]
  | cons p l ih =>
    by_cases h : p.1 = k <;>
      simp only [alookup, aupdate, List.map_cons, h, if_pos, if_neg,
        not_false_iff, Option.map_some', Option.map_none'] <;>
      simpa [aupdate, h] using ih

theorem alookup_aupdate_ne {k k' : κ} (h : ¬ k' = k) {f : α → α}
    {l : List (κ × α)} : alookup k (aupdate k' f l) = alookup k l := by
  induction l with
  | nil => simp [alookup, aupdate]
  | cons p l ih =>
    by_cases hp' : p.1 = k'
    · have hp : ¬ p.1 = k := by
        rw [hp']
        exact h
      simp only [aupdate, List.map_cons, hp', if_pos, alookup]
      simp only [hp', h, hp, if_neg, not_false_iff]
      simpa [aupdate] using ih
    · simp only [aupdate, List.map_cons, hp', if_neg, not_false_iff, alookup]
      by_cases hp : p.1 = k <;> simp only [hp, if_pos, if_neg, not_false_iff] <;>
        simpa [aupdate] using ih

theorem alookup_append {k : κ} {l₁ l₂ : List (κ × α)} :
    alookup k (l₁ ++ l₂) =
      ((alookup k l₁).rec (alookup k l₂) (fun v => some v) : Option α) := by
  induction l₁ with
  | nil => simp [alookup]
  | cons p l ih =>
    by_cases h : p.1 = k <;> simp [alookup, h, ih]

end AssocList

/-- `strings.ToLower` on the ASCII configuration strings (character-list
implementation, so that concrete scenarios evaluate). -/
def goToLower (s : String) : String :=
  ⟨s.data.map Char.toLower⟩

/-- ASCII whitespace as recognised by `strings.TrimSpace` /
`strings.Fields` on the configuration strings. -/
def isSpaceChar (c : Char) : Bool :=
  c = ' ' ∨ c = '\t' ∨ c = '\n' ∨ c = '\r'

/-- `strings.TrimSpace` (character-list implementation). -/
def goTrim (s : String) : String :=
  ⟨((s.data.dropWhile isSpaceChar).reverse.dropWhile isSpaceChar).reverse⟩

/-- Helper for `goFields`: split a character list at whitespace runs. -/
def fieldsAux : List Char → List Char → List String
  | [], acc => if acc.isEmpty then [] else [⟨acc.reverse⟩]
  | c :: rest, acc =>
    if isSpaceChar c then
      if acc.isEmpty then fieldsAux rest []
      else (⟨acc.reverse⟩ : String) :: fieldsAux rest []
    else fieldsAux rest (c :: acc)

/-- `strings.Fields` (character-list implementation). -/
def goFields (s : String) : List String :=
  fieldsAux s.data []

/-! ## Gene attribute kernels (`neat/genes.go`) -/

/-- `initFloatAttribute` from `genes.go`.  The raw PRNG sample
(`rand.NormFloat64()` resp. `rand.Float64()`) is the next float draw. -/
def initFloatAttribute (mean stdev : ℚ) (initType : String)
    (minVal maxVal : ℚ) (rng : Rng) : ℚ × Rng :=
  let t := goToLower initType
  let dr := rng.nextFloat
  let draw := dr.1
  let val :=
    if t = "gaussian" ∨ t = "normal" ∨ t = "" then draw * stdev + mean
    else if t = "uniform" then
      let rangeMin := max minVal (mean - 2 * stdev)
      let rangeMax := min maxVal (mean + 2 * stdev)
      let rangeMax := if rangeMax < rangeMin then rangeMin else rangeMax
      draw * (rangeMax - rangeMin) + rangeMin
    else
      -- unknown init_type: warning printed, gaussian used
      draw * stdev + mean
  (clamp val minVal maxVal, dr.2)

/-- `mutateFloatAttribute` from `genes.go`. -/
def mutateFloatAttribute (value mutateRate replaceRate mutatePower
    initMean initStdev : ℚ) (initType : String) (minVal maxVal : ℚ)
    (rng : Rng) : ℚ × Rng :=
  let dr := rng.nextFloat
  if dr.1 < mutateRate then
    let dp := dr.2.nextFloat
    (clamp (value + dp.1 * mutatePower) minVal maxVal, dp.2)
  else if dr.1 < mutateRate + replaceRate then
    initFloatAttribute initMean initStdev initType minVal maxVal dr.2
  else
    (value, dr.2)

/-- `parseBoolAttribute` from `math_util.go`
(`"random"`/`"none"` draw a fair coin). -/
def parseBoolAttribute (valStr : String) (rng : Rng) : Bool × Rng :=
  let s := goToLower (goTrim valStr)
  if s = "true" ∨ s = "yes" ∨ s = "on" ∨ s = "1" then (true, rng)
  else if s = "random" ∨ s = "none" then
    let dr := rng.nextFloat
    (dr.1 < 1/2, dr.2)
  else (false, rng)

/-- `initBoolAttribute` from `genes.go`. -/
def initBoolAttribute (defaultValStr : String) (rng : Rng) : Bool × Rng :=
  parseBoolAttribute defaultValStr rng

/-- `initStringAttribute` from `genes.go`. -/
def initStringAttribute (defaultVal : String) (options : List String)
    (rng : Rng) : String × Rng :=
  if options.length = 0 then ("", rng)
  else
    let dl := goToLower defaultVal
    if dl = "random" ∨ dl = "none" ∨ dl = "" then
      let di := rng.nextIntn options.length
      (options.getD di.1 "", di.2)
    else if defaultVal ∈ options then (defaultVal, rng)
    else
      let di := rng.nextIntn options.length
      (options.getD di.1 "", di.2)

/-- The retry loop inside `mutateStringAttribute`: draw options until one
differs from the current value, stopping early when every option equals it.
The loop in the Go source has no iteration bound; the fuel argument is
chosen large enough to exhaust the modelled draw stream. -/
def pickDifferentOption (value : String) (options : List String) :
    ℕ → Rng → String × Rng
  | 0, rng => (value, rng)
  | fuel + 1, rng =>
    let di := rng.nextIntn options.length
    let newValue := options.getD di.1 ""
    if ¬ newValue = value then (newValue, di.2)
    else if options.all (fun opt => opt = value) then (newValue, di.2)
    else pickDifferentOption value options fuel di.2

/-- `mutateStringAttribute` from `genes.go`. -/
def mutateStringAttribute (value : String) (mutateRate : ℚ)
    (options : List String) (rng : Rng) : String × Rng :=
  if options.length ≤ 1 then (value, rng)
  else
    let dr := rng.nextFloat
    if mutateRate > 0 ∧ dr.1 < mutateRate then
      pickDifferentOption value options (dr.2.ints.length + 1) dr.2
    else (value, dr.2)

/-! ## Gene and genome data model (`neat/genes.go`, `neat/genome.go`) -/

/-- `NodeGene`. -/
structure NodeGene where
  key : ℤ
  bias : ℚ
  response : ℚ
  activation : String
  aggregation : String
deriving DecidableEq

/-- `ConnectionKey`: the `(in_node_id, out_node_id)` innovation key. -/
structure ConnectionKey where
  inNodeID : ℤ
  outNodeID : ℤ
deriving DecidableEq

/-- `ConnectionGene`. -/
structure ConnectionGene where
  key : ConnectionKey
  weight : ℚ
  enabled : Bool
deriving DecidableEq

/-- The `GenomeConfig` fields exercised by the verified operations. -/
structure GenomeConfig where
  numInputs : ℕ
  numOutputs : ℕ
  numHidden : ℕ
  feedForward : Bool
  compatibilityDisjointCoefficient : ℚ
  compatibilityWeightCoefficient : ℚ
  connAddProb : ℚ
  connDeleteProb : ℚ
  nodeAddProb : ℚ
  nodeDeleteProb : ℚ
  singleStructuralMutation : Bool
  initialConnection : String
  biasInitMean : ℚ
  biasInitStdev : ℚ
  biasInitType : String
  biasReplaceRate : ℚ
  biasMutateRate : ℚ
  biasMutatePower : ℚ
  biasMaxValue : ℚ
  biasMinValue : ℚ
  responseInitMean : ℚ
  responseInitStdev : ℚ
  responseInitType : String
  responseReplaceRate : ℚ
  responseMutateRate : ℚ
  responseMutatePower : ℚ
  responseMaxValue : ℚ
  responseMinValue : ℚ
  activationDefault : String
  activationOptions : List String
  activationMutateRate : ℚ
  aggregationDefault : String
  aggregationOptions : List String
  aggregationMutateRate : ℚ
  weightInitMean : ℚ
  weightInitStdev : ℚ
  weightInitType : String
  weightReplaceRate : ℚ
  weightMutateRate : ℚ
  weightMutatePower : ℚ
  weightMaxValue : ℚ
  weightMinValue : ℚ
  enabledDefault : String
  enabledMutateRate : ℚ
  enabledRateToTrueAdd : ℚ
  enabledRateToFalseAdd : ℚ
  inputKeys : List ℤ
  outputKeys : List ℤ
  nodeKeyIndex : ℤ
deriving DecidableEq

/-- `GenomeConfig.GetNewNodeKey` from `config.go`: return the current
index and increment it. -/
def GetNewNodeKey (gc : GenomeConfig) : ℤ × GenomeConfig :=
  (gc.nodeKeyIndex, { gc with nodeKeyIndex := gc.nodeKeyIndex + 1 })

/-- `NewNodeGene` from `genes.go` (attribute initialisation order:
activation, aggregation, bias, response — the order the Go code draws
random values in). -/
def NewNodeGene (key : ℤ) (cfg : GenomeConfig) (rng : Rng) :
    NodeGene × Rng :=
  let sact :=
    initStringAttribute cfg.activationDefault cfg.activationOptions rng
  let sagg :=
    initStringAttribute cfg.aggregationDefault cfg.aggregationOptions sact.2
  let sbias := initFloatAttribute cfg.biasInitMean cfg.biasInitStdev
    cfg.biasInitType cfg.biasMinValue cfg.biasMaxValue sagg.2
  let sresp := initFloatAttribute cfg.responseInitMean
    cfg.responseInitStdev cfg.responseInitType cfg.responseMinValue
    cfg.responseMaxValue sbias.2
  (⟨key, sbias.1, sresp.1, sact.1, sagg.1⟩, sresp.2)

/-- `NewConnectionGene` from `genes.go` (enabled flag first, then weight). -/
def NewConnectionGene (key : ConnectionKey) (cfg : GenomeConfig)
    (rng : Rng) : ConnectionGene × Rng :=
  let sen := initBoolAttribute cfg.enabledDefault rng
  let sw := initFloatAttribute cfg.weightInitMean
    cfg.weightInitStdev cfg.weightInitType cfg.weightMinValue
    cfg.weightMaxValue sen.2
  (⟨key, sw.1, sen.1⟩, sw.2)

/-- `Genome` (the `Config` pointer is passed explicitly to the
operations instead of being stored). -/
structure Genome where
  key : ℤ
  nodes : List (ℤ × NodeGene)
  connections : List (ConnectionKey × ConnectionGene)
  fitness : ℚ
deriving DecidableEq

/-- `NewGenome` from `genome.go`. -/
def NewGenome (key : ℤ) : Genome :=
  ⟨key, [], [], 0⟩

/-! ## Cycle detection (`createsCycle` in `genome.go`) -/

/-- The out-neighbours of `current` along enabled connections, in
connection-map iteration order (the body of the BFS inner loop). -/
def connSuccessors (g : Genome) (current : ℤ) : List ℤ :=
  g.connections.filterMap (fun p =>
    if p.2.enabled ∧ p.1.inNodeID = current then some p.1.outNodeID
    else none)

/-- The BFS worklist loop of `createsCycle`; `fuel` bounds the number of
iterations (chosen below so that it never runs out). -/
def bfsVisit (g : Genome) (inNode : ℤ) :
    List ℤ → List ℤ → ℕ → Bool
  | _, _, 0 => false
  | _, [], _ + 1 => false
  | visited, current :: rest, fuel + 1 =>
    if current = inNode then true
    else if current ∈ visited then bfsVisit g inNode visited rest fuel
    else bfsVisit g inNode (current :: visited)
      (rest ++ connSuccessors g current) fuel

/-- An iteration bound sufficient for `bfsVisit` to terminate on its own:
every queued node is `outNode` or the head of an enabled connection's
target, so at most `|connections| + 1` nodes are ever marked visited, and
each visit enqueues at most `|connections|` further nodes. -/
def bfsFuel (g : Genome) : ℕ :=
  (g.connections.length + 1) * (g.connections.length + 1) + 1

/-- `createsCycle` from `genome.go`: would a connection `inNode → outNode`
close a cycle through the currently enabled connections? -/
def createsCycle (g : Genome) (inNode outNode : ℤ) : Bool :=
  if inNode = outNode then true
  else bfsVisit g inNode [] [outNode] (bfsFuel g)

/-! ## Structural mutation (`genome.go`) -/

/-- `Genome.mutateAddNode` from `genome.go`. -/
def mutateAddNode (cfg : GenomeConfig) (g : Genome) (rng : Rng) :
    Genome × GenomeConfig × Rng :=
  if g.connections.length = 0 then (g, cfg, rng)
  else
    let keys := g.connections.map Prod.fst
    let di := rng.nextIntn keys.length
    let connToSplitKey := keys.getD di.1 ⟨0, 0⟩
    let connToSplit :=
      (alookup connToSplitKey g.connections).getD ⟨connToSplitKey, 0, true⟩
    let conns₁ :=
      aupdate connToSplitKey (fun c => { c with enabled := false })
        g.connections
    let g := { g with connections := conns₁ }
    let nk := GetNewNodeKey cfg
    let newNodeKey := nk.1
    let cfg := nk.2
    let sn := NewNodeGene newNodeKey cfg di.2
    let g := { g with nodes := ainsert newNodeKey sn.1 g.nodes }
    let conn1Key : ConnectionKey := ⟨connToSplit.key.inNodeID, newNodeKey⟩
    let sc1 := NewConnectionGene conn1Key cfg sn.2
    let conn1 := { sc1.1 with weight := 1, enabled := true }
    let g := { g with connections := ainsert conn1Key conn1 g.connections }
    let conn2Key : ConnectionKey := ⟨newNodeKey, connToSplit.key.outNodeID⟩
    let sc2 := NewConnectionGene conn2Key cfg sc1.2
    let conn2 :=
      { sc2.1 with weight := connToSplit.weight, enabled := true }
    let g := { g with connections := ainsert conn2Key conn2 g.connections }
    (g, cfg, sc2.2)

/-- The candidate in-nodes for `mutateAddConnection`: input keys plus the
non-input genome node keys, in map iteration order. -/
def possibleInputsOf (cfg : GenomeConfig) (g : Genome) : List ℤ :=
  cfg.inputKeys ++
    (g.nodes.map Prod.fst).filter (fun nk => ¬ nk ∈ cfg.inputKeys)

/-- The candidate out-nodes for `mutateAddConnection`: all genome node
keys. -/
def possibleOutputsOf (g : Genome) : List ℤ :=
  g.nodes.map Prod.fst

/-- The retry loop of `Genome.mutateAddConnection` (at most 20 attempts). -/
def addConnAttempts (cfg : GenomeConfig) (g : Genome)
    (pin pout : List ℤ) : ℕ → Rng → Genome × Rng
  | 0, rng => (g, rng)
  | n + 1, rng =>
    let di := rng.nextIntn pin.length
    let inNodeKey := pin.getD di.1 0
    let dj := di.2.nextIntn pout.length
    let outNodeKey := pout.getD dj.1 0
    if outNodeKey ∈ cfg.inputKeys then
      addConnAttempts cfg g pin pout n dj.2
    else
      let connKey : ConnectionKey := ⟨inNodeKey, outNodeKey⟩
      if (alookup connKey g.connections).isSome then
        addConnAttempts cfg g pin pout n dj.2
      else if cfg.feedForward ∧ createsCycle g inNodeKey outNodeKey then
        addConnAttempts cfg g pin pout n dj.2
      else
        let sc := NewConnectionGene connKey cfg dj.2
        ({ g with connections := ainsert connKey sc.1 g.connections },
          sc.2)

/-- `Genome.mutateAddConnection` from `genome.go`. -/
def mutateAddConnection (cfg : GenomeConfig) (g : Genome) (rng : Rng) :
    Genome × Rng :=
  let pin := possibleInputsOf cfg g
  let pout := possibleOutputsOf g
  if pin.length = 0 ∨ pout.length = 0 then (g, rng)
  else addConnAttempts cfg g pin pout 20 rng

/-! ## Attribute mutation on genes in a genome context -/

/-- `NodeGene.Mutate` from `genes.go` (bias, response, activation,
aggregation — in that order). -/
def NodeGeneMutate (cfg : GenomeConfig) (ng : NodeGene) (rng : Rng) :
    NodeGene × Rng :=
  let sb := mutateFloatAttribute ng.bias cfg.biasMutateRate
    cfg.biasReplaceRate cfg.biasMutatePower cfg.biasInitMean
    cfg.biasInitStdev cfg.biasInitType cfg.biasMinValue cfg.biasMaxValue rng
  let sr := mutateFloatAttribute ng.response
    cfg.responseMutateRate cfg.responseReplaceRate cfg.responseMutatePower
    cfg.responseInitMean cfg.responseInitStdev cfg.responseInitType
    cfg.responseMinValue cfg.responseMaxValue sb.2
  let sa := mutateStringAttribute ng.activation
    cfg.activationMutateRate cfg.activationOptions sr.2
  let sg := mutateStringAttribute ng.aggregation
    cfg.aggregationMutateRate cfg.aggregationOptions sa.2
  (⟨ng.key, sb.1, sr.1, sa.1, sg.1⟩, sg.2)

/-- `mutateBoolAttribute` from `genes.go`: the enabled-flag kernel with
its feed-forward cycle guard (`genome`/`cg` give the cycle-check
context). -/
def mutateBoolAttribute (value : Bool)
    (mutateRate rateToTrueAdd rateToFalseAdd : ℚ) (feedForward : Bool)
    (g : Genome) (ck : ConnectionKey) (rng : Rng) : Bool × Rng :=
  let effectiveMutateRate :=
    mutateRate + (if value then rateToFalseAdd else rateToTrueAdd)
  if effectiveMutateRate > 0 then
    let dr := rng.nextFloat
    if dr.1 < effectiveMutateRate then
      let dc := dr.2.nextFloat
      let newState := dc.1 < 1/2
      if (¬ value) ∧ newState ∧ feedForward then
        if createsCycle g ck.inNodeID ck.outNodeID then (false, dc.2)
        else (newState, dc.2)
      else (newState, dc.2)
    else (value, dr.2)
  else (value, rng)

/-- `ConnectionGene.Mutate` from `genes.go`, acting on the gene stored at
key `k` of the genome (the Go code mutates the gene in place through the
map; the enabled-flag mutation reads the genome state that already has
the updated weight). -/
def ConnectionGeneMutateIn (cfg : GenomeConfig) (g : Genome)
    (k : ConnectionKey) (rng : Rng) : Genome × Rng :=
  match alookup k g.connections with
  | none => (g, rng)
  | some cg =>
    let sw := mutateFloatAttribute cg.weight cfg.weightMutateRate
      cfg.weightReplaceRate cfg.weightMutatePower cfg.weightInitMean
      cfg.weightInitStdev cfg.weightInitType cfg.weightMinValue
      cfg.weightMaxValue rng
    let conns₁ :=
      aupdate k (fun c => { c with weight := sw.1 }) g.connections
    let g := { g with connections := conns₁ }
    let se := mutateBoolAttribute cg.enabled cfg.enabledMutateRate
      cfg.enabledRateToTrueAdd cfg.enabledRateToFalseAdd cfg.feedForward
      g k sw.2
    let conns₂ :=
      aupdate k (fun c => { c with enabled := se.1 }) g.connections
    ({ g with connections := conns₂ }, se.2)

/-- `Genome.Mutate` from `genome.go`: the two structural mutations
(guarded by `single_structural_mutation`), the two delete hooks (which
only consume a coin — their bodies are commented out in the source), then
the attribute pass over every node and every connection. -/
def GenomeMutate (cfg : GenomeConfig) (g : Genome) (rng : Rng) :
    Genome × GenomeConfig × Rng :=
  let singleMutation := cfg.singleStructuralMutation
  let d₁ := rng.nextFloat
  let res₁ :=
    if d₁.1 < cfg.nodeAddProb then
      let st := mutateAddNode cfg g d₁.2
      (st.1, st.2.1, st.2.2, true)
    else (g, cfg, d₁.2, false)
  let g := res₁.1
  let cfg := res₁.2.1
  let structureMutated := res₁.2.2.2
  let res₂ :=
    if ¬ singleMutation ∨ ¬ structureMutated then
      let d₂ := res₁.2.2.1.nextFloat
      if d₂.1 < cfg.connAddProb then
        let st := mutateAddConnection cfg g d₂.2
        (st.1, st.2, true)
      else (g, d₂.2, structureMutated)
    else (g, res₁.2.2.1, structureMutated)
  let g := res₂.1
  let structureMutated := res₂.2.2
  let rng :=
    if ¬ singleMutation ∨ ¬ structureMutated then (res₂.2.1.nextFloat).2
    else res₂.2.1
  let rng :=
    if ¬ singleMutation ∨ ¬ structureMutated then (rng.nextFloat).2 else rng
  let res₃ := g.nodes.foldl
    (fun (st : List (ℤ × NodeGene) × Rng) p =>
      let sn := NodeGeneMutate cfg p.2 st.2
      (st.1 ++ [(p.1, sn.1)], sn.2)) ([], rng)
  let g := { g with nodes := res₃.1 }
  let res₄ := (g.connections.map Prod.fst).foldl
    (fun (st : Genome × Rng) k => ConnectionGeneMutateIn cfg st.1 k st.2)
    (g, res₃.2)
  (res₄.1, cfg, res₄.2)

/-! ## Crossover (`genome.go`, `genes.go`) -/

/-- `ConnectionGene.Crossover` from `genes.go` (weight coin, then
enabled coin). -/
def ConnectionGeneCrossover (cg other : ConnectionGene) (rng : Rng) :
    ConnectionGene × Rng :=
  let d₁ := rng.nextFloat
  let child := if d₁.1 < 1/2 then { cg with weight := other.weight } else cg
  let d₂ := d₁.2.nextFloat
  let child :=
    if d₂.1 < 1/2 then { child with enabled := other.enabled } else child
  (child, d₂.2)

/-- `Genome.ConfigureCrossover` from `genome.go`: reorder the parents so
the fitter is primary, copy its nodes, and inherit each of its
connections (crossing over homologous genes, copying disjoint/excess
genes). -/
def ConfigureCrossover (g parent1 parent2 : Genome) (rng : Rng) :
    Genome × Rng :=
  let pp :=
    if parent1.fitness < parent2.fitness then (parent2, parent1)
    else (parent1, parent2)
  let p1 := pp.1
  let p2 := pp.2
  let nodes := p1.nodes.foldl (fun acc p => ainsert p.1 p.2 acc) g.nodes
  let res := p1.connections.foldl
    (fun (st : List (ConnectionKey × ConnectionGene) × Rng) p =>
      match alookup p.1 p2.connections with
      | some conn2 =>
        let sx := ConnectionGeneCrossover p.2 conn2 st.2
        (ainsert p.1 sx.1 st.1, sx.2)
      | none => (ainsert p.1 p.2 st.1, st.2)) (g.connections, rng)
  ({ g with nodes := nodes, connections := res.1 }, res.2)

/-! ## Compatibility distance (`genome.go`, `genes.go`) -/

/-- `ConnectionGene.Distance` from `genes.go`. -/
def ConnectionGeneDistance (cfg : GenomeConfig)
    (cg other : ConnectionGene) : ℚ :=
  (|cg.weight - other.weight| +
      (if cg.enabled = other.enabled then 0 else 1)) *
    cfg.compatibilityWeightCoefficient

/-- `Genome.Distance` from `genome.go`. -/
def GenomeDistance (cfg : GenomeConfig) (g other : Genome) : ℚ :=
  let acc := g.connections.foldl
    (fun (st : ℕ × ℚ × ℕ) p =>
      match alookup p.1 other.connections with
      | some conn2 =>
        (st.1, st.2.1 + ConnectionGeneDistance cfg p.2 conn2, st.2.2 + 1)
      | none => (st.1 + 1, st.2.1, st.2.2)) (0, 0, 0)
  let disjointCount := other.connections.foldl
    (fun d p => if (alookup p.1 g.connections).isSome then d else d + 1)
    acc.1
  let weightDiffSum := acc.2.1
  let matchingGeneCount := acc.2.2
  let n : ℚ := max g.connections.length other.connections.length
  let n := if n < 1 then 1 else n
  let compatibility :=
    cfg.compatibilityDisjointCoefficient * (disjointCount : ℚ) / n
  if matchingGeneCount > 0 then
    compatibility + cfg.compatibilityWeightCoefficient *
      (weightDiffSum / (matchingGeneCount : ℚ))
  else compatibility

/-! ## Initial configuration (`genome.go`: `ConfigureNew`,
`setupInitialConnections`) -/

/-- One `g.Connections[connKey] = NewConnectionGene(connKey, g.Config)`
statement from `setupInitialConnections`. -/
def addNewConnection (cfg : GenomeConfig) (gr : Genome × Rng)
    (ik ok : ℤ) : Genome × Rng :=
  let connKey : ConnectionKey := ⟨ik, ok⟩
  let sc := NewConnectionGene connKey cfg gr.2
  ({ gr.1 with connections := ainsert connKey sc.1 gr.1.connections },
    sc.2)

/-- The probabilistic variant used by the `partial*` schemes
(`connectionFraction` is left at its default `1.0` in the source — the
fraction parsing is commented out). -/
def addNewConnectionP (cfg : GenomeConfig) (fraction : ℚ)
    (gr : Genome × Rng) (ik ok : ℤ) : Genome × Rng :=
  let dr := gr.2.nextFloat
  if dr.1 < fraction then addNewConnection cfg (gr.1, dr.2) ik ok
  else (gr.1, dr.2)

/-- `Genome.setupInitialConnections` from `genome.go`. -/
def setupInitialConnections (cfg : GenomeConfig) (g : Genome)
    (rng : Rng) : Genome × Rng :=
  let parts := goFields cfg.initialConnection
  let baseConnType := parts.headD ""
  let connectionFraction : ℚ := 1
  let inputKeys := cfg.inputKeys
  let outputKeys := cfg.outputKeys
  let hiddenKeys := List.insertionSort (fun a b => a ≤ b)
    ((g.nodes.map Prod.fst).filter (fun nk => ¬ nk ∈ outputKeys))
  if baseConnType = "unconnected" then (g, rng)
  else if baseConnType = "fs_neat_nohidden" ∨ baseConnType = "fs_neat" then
    inputKeys.foldl (fun gr ik =>
      outputKeys.foldl (fun gr ok => addNewConnection cfg gr ik ok) gr)
      (g, rng)
  else if baseConnType = "fs_neat_hidden" then
    let gr := inputKeys.foldl (fun gr ik =>
      hiddenKeys.foldl (fun gr hk => addNewConnection cfg gr ik hk) gr)
      (g, rng)
    hiddenKeys.foldl (fun gr hk =>
      outputKeys.foldl (fun gr ok => addNewConnection cfg gr hk ok) gr) gr
  else if baseConnType = "full_nodirect" ∨ baseConnType = "full" then
    let gr := inputKeys.foldl (fun gr ik =>
      hiddenKeys.foldl (fun gr hk => addNewConnection cfg gr ik hk) gr)
      (g, rng)
    hiddenKeys.foldl (fun gr hk1 =>
      let gr := hiddenKeys.foldl
        (fun gr hk2 => addNewConnection cfg gr hk1 hk2) gr
      outputKeys.foldl (fun gr ok => addNewConnection cfg gr hk1 ok) gr) gr
  else if baseConnType = "full_direct" then
    let gr := inputKeys.foldl (fun gr ik =>
      let gr := hiddenKeys.foldl
        (fun gr hk => addNewConnection cfg gr ik hk) gr
      outputKeys.foldl (fun gr ok => addNewConnection cfg gr ik ok) gr)
      (g, rng)
    hiddenKeys.foldl (fun gr hk1 =>
      let gr := hiddenKeys.foldl
        (fun gr hk2 => addNewConnection cfg gr hk1 hk2) gr
      outputKeys.foldl (fun gr ok => addNewConnection cfg gr hk1 ok) gr) gr
  else if baseConnType = "partial_nodirect" ∨ baseConnType = "partial" then
    let gr := inputKeys.foldl (fun gr ik =>
      hiddenKeys.foldl
        (fun gr hk => addNewConnectionP cfg connectionFraction gr ik hk) gr)
      (g, rng)
    hiddenKeys.foldl (fun gr hk1 =>
      let gr := hiddenKeys.foldl
        (fun gr hk2 => addNewConnectionP cfg connectionFraction gr hk1 hk2)
        gr
      outputKeys.foldl
        (fun gr ok => addNewConnectionP cfg connectionFraction gr hk1 ok)
        gr) gr
  else if baseConnType = "partial_direct" then
    let gr := inputKeys.foldl (fun gr ik =>
      let gr := hiddenKeys.foldl
        (fun gr hk => addNewConnectionP cfg connectionFraction gr ik hk) gr
      outputKeys.foldl
        (fun gr ok => addNewConnectionP cfg connectionFraction gr ik ok) gr)
      (g, rng)
    hiddenKeys.foldl (fun gr hk1 =>
      let gr := hiddenKeys.foldl
        (fun gr hk2 => addNewConnectionP cfg connectionFraction gr hk1 hk2)
        gr
      outputKeys.foldl
        (fun gr ok => addNewConnectionP cfg connectionFraction gr hk1 ok)
        gr) gr
  else
    -- invalid initial_connection: the Go code panics; unreachable after
    -- config validation
    (g, rng)

/-- `Genome.ConfigureNew` from `genome.go`: output nodes first, then
`num_hidden` hidden nodes keyed from the shared counter, then the initial
connections. -/
def ConfigureNew (cfg : GenomeConfig) (key : ℤ) (rng : Rng) :
    Genome × GenomeConfig × Rng :=
  let g := NewGenome key
  let res₁ := cfg.outputKeys.foldl
    (fun (st : Genome × Rng) nodeKey =>
      let sn := NewNodeGene nodeKey cfg st.2
      ({ st.1 with nodes := ainsert nodeKey sn.1 st.1.nodes }, sn.2))
    (g, rng)
  let res₂ :=
    if cfg.numHidden > 0 then
      (List.range cfg.numHidden).foldl
        (fun (st : Genome × GenomeConfig × Rng) _ =>
          let nk := GetNewNodeKey st.2.1
          let sn := NewNodeGene nk.1 nk.2 st.2.2
          ({ st.1 with nodes := ainsert nk.1 sn.1 st.1.nodes }, nk.2,
            sn.2))
        (res₁.1, cfg, res₁.2)
    else (res₁.1, cfg, res₁.2)
  let res₃ := setupInitialConnections res₂.2.1 res₂.1 res₂.2.2
  (res₃.1, res₂.2.1, res₃.2)

/-! ## Stagnation (`Stagnation.Update`) -/

/-- The per-species state touched by `Stagnation.Update`
(`memberFitnesses` is the result of `GetFitnesses()`, in member
iteration order). -/
structure SpeciesSt where
  skey : ℕ
  memberFitnesses : List ℚ
  fitnessHistory : List GoFloat
  lastImproved : ℤ
  fitness : GoFloat
  adjustedFitness : ℚ
deriving DecidableEq

/-- Phase 1 of `Stagnation.Update`: compute the species fitness, append
it to the history, reset the adjusted fitness, and refresh
`last_improved`. -/
def stagnationRefresh (fn : List ℚ → ℚ) (generation : ℤ)
    (sp : SpeciesSt) : SpeciesSt :=
  let previousMaxFitness :=
    if sp.fitnessHistory.length > 0 then MaxFloatG sp.fitnessHistory
    else GoFloat.ninf
  let fitness :=
    if sp.memberFitnesses.length = 0 then GoFloat.ninf
    else GoFloat.fin (fn sp.memberFitnesses)
  let lastImproved :=
    if GoFloat.gt fitness previousMaxFitness then generation
    else sp.lastImproved
  ⟨sp.skey, sp.memberFitnesses, sp.fitnessHistory ++ [fitness],
    lastImproved, fitness, 0⟩

/-- Phase 2 of `Stagnation.Update`: the walk over the
fitness-ascending species list, with the (muddled) double elitism check
of the source reproduced verbatim.  `i` is the loop index and
`numNonStagnant` the running counter. -/
def stagnationMark (maxStagnation speciesElitism : ℤ) (generation : ℤ)
    (numSpecies : ℕ) :
    ℕ → ℤ → List (ℕ × SpeciesSt) → List (ℕ × SpeciesSt × Bool)
  | _, _, [] => []
  | i, numNonStagnant, (sid, sp) :: rest =>
    let stagnantTime := generation - sp.lastImproved
    let isStagnant := false
    let st₁ :=
      if stagnantTime ≥ maxStagnation then
        if (numSpecies : ℤ) - (i : ℤ) > speciesElitism then
          (true, numNonStagnant - 1)
        else (isStagnant, numNonStagnant)
      else (isStagnant, numNonStagnant)
    let isStagnant := st₁.1
    let numNonStagnant := st₁.2
    let st₂ :=
      if numNonStagnant ≤ speciesElitism ∧ isStagnant then
        let isStagnantStandard := stagnantTime ≥ maxStagnation
        let isStagnant := false
        let isStagnant :=
          if numNonStagnant > speciesElitism ∧ isStagnantStandard then true
          else isStagnant
        let isStagnant :=
          if (numSpecies : ℤ) - (i : ℤ) ≤ speciesElitism then false
          else isStagnant
        if isStagnantStandard ∧ ¬ isStagnant then
          -- species spared from stagnation: informational print only
          (isStagnant, numNonStagnant)
        else if isStagnant then (isStagnant, numNonStagnant - 1)
        else (isStagnant, numNonStagnant)
      else (isStagnant, numNonStagnant)
    (sid, sp, st₂.1) ::
      stagnationMark maxStagnation speciesElitism generation numSpecies
        (i + 1) st₂.2 rest

/-- `Stagnation.Update` from the stagnation portion of the sources:
refresh every species, sort ascending by fitness, then mark stagnant
species subject to species elitism.  `speciesList` is the species map in
iteration order; `fn` is the configured `species_fitness_func`. -/
def StagnationUpdate (fn : List ℚ → ℚ)
    (maxStagnation speciesElitism : ℤ)
    (speciesList : List (ℕ × SpeciesSt)) (generation : ℤ) :
    List (ℕ × SpeciesSt × Bool) :=
  let speciesData := speciesList.map
    (fun p => (p.1, stagnationRefresh fn generation p.2))
  let sorted := List.insertionSort
    (fun a b => GoFloat.leB a.2.fitness b.2.fitness) speciesData
  stagnationMark maxStagnation speciesElitism generation
    sorted.length 0 (sorted.length : ℤ) sorted

/-! ## Spawn computation (`computeSpawnAmounts`) -/

/-- The ±1 adjustment loop at the end of `computeSpawnAmounts`;
`indices` is the shuffled index order produced by `rand.Shuffle`. -/
def spawnAdjustLoop (minSpeciesSize : ℤ) :
    List ℕ → ℤ → List ℤ → List ℤ
  | [], _, spawns => spawns
  | idx :: rest, diff, spawns =>
    if diff = 0 then spawns
    else if diff > 0 then
      spawnAdjustLoop minSpeciesSize rest (diff - 1)
        (spawns.modify (fun s => s + 1) idx)
    else if spawns.getD idx 0 > minSpeciesSize then
      spawnAdjustLoop minSpeciesSize rest (diff + 1)
        (spawns.modify (fun s => s - 1) idx)
    else spawnAdjustLoop minSpeciesSize rest diff spawns

/-- `computeSpawnAmounts` from the reproduction portion of the sources.
`shuffledIndices` stands for the result of the `rand.Shuffle` call used
only when the rounded total misses `pop_size`. -/
def computeSpawnAmounts (adjustedFitnesses : List ℚ)
    (adjustedFitnessSum : ℚ) (previousSizes : List ℤ) (popSize : ℤ)
    (minSpeciesSize : ℤ) (shuffledIndices : List ℕ) : List ℤ :=
  let spawnAmounts := (adjustedFitnesses.zip previousSizes).map
    (fun p =>
      let af : ℚ := p.1
      let ps : ℤ := p.2
      let s : ℚ :=
        if adjustedFitnessSum > 0 then
          af / adjustedFitnessSum * (popSize : ℚ)
        else (minSpeciesSize : ℚ)
      let s := max (minSpeciesSize : ℚ) s
      let d := (s - (ps : ℚ)) * (1/2)
      let c : ℤ := goRound d
      let spawn : ℤ :=
        if |(c : ℚ)| > 0 then ps + c
        else if d > 0 then ps + 1
        else if d < 0 then ps - 1
        else ps
      max minSpeciesSize spawn)
  let totalSpawn : ℤ := spawnAmounts.foldl (· + ·) 0
  if totalSpawn = 0 then
    -- degenerate fallback: assign the minimum everywhere
    spawnAmounts.map (fun _ => minSpeciesSize)
  else
    let norm : ℚ := (popSize : ℚ) / (totalSpawn : ℚ)
    let finalSpawnAmounts := spawnAmounts.map
      (fun sa => max minSpeciesSize (goRound ((sa : ℚ) * norm)))
    let currentTotal : ℤ := finalSpawnAmounts.foldl (· + ·) 0
    let diff := popSize - currentTotal
    if diff = 0 then finalSpawnAmounts
    else spawnAdjustLoop minSpeciesSize shuffledIndices diff
      finalSpawnAmounts

/-! ## Population best tracking (`population.go`)

Genome objects live on the Go heap and are shared by reference between
the population map, the species members, and `p.BestGenome`; an elite is
transferred into the next population as the same object, so a later
fitness evaluation overwrites the fitness field the best-genome pointer
sees.  The model keeps the heap explicit: `heap` maps a genome identity
to the current value of its `Fitness` field, `popIds` is the population
map (identities, in iteration order) and `bestId` is the `BestGenome`
pointer. -/
structure PopSim where
  heap : List (ℤ × ℚ)
  popIds : List ℤ
  bestId : Option ℤ
deriving DecidableEq

/-- The fitness field read through a genome pointer. -/
def heapFitness (heap : List (ℤ × ℚ)) (gid : ℤ) : ℚ :=
  (alookup gid heap).getD 0

/-- `Population.findBestGenome`: scan the population map for the
strictly highest fitness, starting from `math.Inf(-1)`. -/
def findBestGenome (heap : List (ℤ × ℚ)) (popIds : List ℤ) : Option ℤ :=
  (popIds.foldl
    (fun (st : Option ℤ × GoFloat) gid =>
      if GoFloat.gt (GoFloat.fin (heapFitness heap gid)) st.2 then
        (some gid, GoFloat.fin (heapFitness heap gid))
      else st)
    (none, GoFloat.ninf)).1

/-- A fitness evaluation: the external evaluator writes the fitness field
of every genome in the population (and touches nothing else). -/
def evalPop (updates : List (ℤ × ℚ)) (heap : List (ℤ × ℚ)) :
    List (ℤ × ℚ) :=
  updates.foldl (fun h p => ainsert p.1 p.2 h) heap

/-- Steps 1–2 of `Population.RunGeneration`: evaluate fitness, find the
generation best, and update `BestGenome` when the comparison against the
(possibly just re-evaluated) tracked best succeeds. -/
def runGenerationTracking (s : PopSim) (updates : List (ℤ × ℚ)) :
    PopSim :=
  let heap := evalPop updates s.heap
  let currentBest := findBestGenome heap s.popIds
  let bestId :=
    match s.bestId, currentBest with
    | none, _ => currentBest
    | some b, some c =>
      if heapFitness heap c > heapFitness heap b then currentBest
      else some b
    | some b, none => some b
  { s with heap := heap, bestId := bestId }

/-- The all-time best fitness the population reports
(`p.BestGenome.Fitness`). -/
def bestFitness (s : PopSim) : Option ℚ :=
  s.bestId.map (heapFitness s.heap)

/-! ## Activation and aggregation registries (`activations.go`, the
aggregation portion of `genes.go`)

The registries map names to Go function values; the function values are
represented by tags (one per distinct Go function), and the numeric
semantics of a tag is supplied as an interpretation parameter where the
network is evaluated. -/

/-- One tag per distinct function value in `ActivationFunctions`. -/
inductive ActTag where
  | sigmoid | tanh | relu | identity | clamped | gaussian | absolute
  | sine | cosine | inv | log | exp | hat | square | cube
deriving DecidableEq

/-- One tag per distinct function value in `AggregationFunctions`. -/
inductive AggTag where
  | sum | product | min | max | mean | median
deriving DecidableEq

/-- The `ActivationFunctions` map from `activations.go`
(note `"abs"` is an alias for `Absolute`; `"sin"`/`"cos"` are *not*
registered — the registered names are `"sine"`/`"cosine"`). -/
def ActivationFunctions : List (String × ActTag) :=
  [("sigmoid", .sigmoid), ("tanh", .tanh), ("relu", .relu),
   ("identity", .identity), ("clamped", .clamped), ("gaussian", .gaussian),
   ("absolute", .absolute), ("sine", .sine), ("cosine", .cosine),
   ("inv", .inv), ("log", .log), ("exp", .exp), ("abs", .absolute),
   ("hat", .hat), ("square", .square), ("cube", .cube)]

/-- `GetActivation` from `activations.go`. -/
def GetActivation (name : String) : Except String ActTag :=
  match alookup name ActivationFunctions with
  | some fn => .ok fn
  | none => .error ("unknown activation function: " ++ name)

/-- The `AggregationFunctions` map from `genes.go`
(`"average"` is an alias for `AggregateMean`; `"maxabs"` is *not*
registered — `AggregateMaxAbs` exists in the source but never enters the
map). -/
def AggregationFunctions : List (String × AggTag) :=
  [("sum", .sum), ("product", .product), ("min", .min), ("max", .max),
   ("mean", .mean), ("median", .median), ("average", .mean)]

/-- `GetAggregation` from `genes.go`. -/
def GetAggregation (name : String) : Except String AggTag :=
  match alookup name AggregationFunctions with
  | some fn => .ok fn
  | none => .error ("unknown aggregation function: " ++ name)

/-- `AggregateSum` from `genes.go` (delegates to `Sum`). -/
def AggregateSum (inputs : List ℚ) : ℚ := goSum inputs

/-- `AggregateProduct` from `genes.go` (empty slice yields `0.0`). -/
def AggregateProduct (inputs : List ℚ) : ℚ :=
  if inputs.length = 0 then 0 else inputs.foldl (· * ·) 1

/-- `AggregateMean` from `genes.go` (delegates to `Mean`). -/
def AggregateMean (inputs : List ℚ) : ℚ := goMean inputs

/-! ## Feed-forward phenotype (`neat/nn/feedforward.go`) -/

/-- `InputConnection`. -/
structure InputConnection where
  inputNodeIndex : ℕ
  weight : ℚ
deriving DecidableEq

/-- `neuralNode` (activation/aggregation function values as tags). -/
structure NeuralNode where
  originalKey : ℤ
  bias : ℚ
  response : ℚ
  activationFn : ActTag
  aggregationFn : AggTag
  inputs : List InputConnection
deriving DecidableEq

instance : Inhabited NeuralNode :=
  ⟨⟨0, 0, 0, .identity, .sum, []⟩⟩

/-- `FeedForwardNetwork`. -/
structure FeedForwardNetwork where
  inputIndices : List ℕ
  outputIndices : List ℕ
  nodeEvalOrder : List ℕ
  nodes : List NeuralNode
  numNodes : ℕ
deriving DecidableEq

/-- In-place update of a slice element (`xs[i] = f(xs[i])`). -/
def lmodify {α : Type} (l : List α) (i : ℕ) (f : α → α) : List α :=
  match l, i with
  | [], _ => []
  | x :: xs, 0 => f x :: xs
  | x :: xs, n + 1 => x :: lmodify xs n f

/-- The Kahn worklist loop of `CreateFeedForwardNetwork` (step 4);
the queue is re-sorted after each expansion, neighbours are expanded in
ascending order.  `fuel` bounds the iterations (each node enters the
queue at most once, so `numNodes + 1` suffices). -/
def kahnLoop (graph : List (List ℕ)) :
    ℕ → List ℕ → List ℕ → List ℕ → List ℕ
  | 0, _, _, order => order
  | _ + 1, _, [], order => order
  | fuel + 1, inDegree, u :: rest, order =>
    let order := order ++ [u]
    let neighbors := List.insertionSort (fun a b => a ≤ b)
      (graph.getD u [])
    let st := neighbors.foldl
      (fun (st : List ℕ × List ℕ) v =>
        let ind := lmodify st.1 v (fun d => d - 1)
        if ind.getD v 0 = 0 then (ind, st.2 ++ [v]) else (ind, st.2))
      (inDegree, rest)
    kahnLoop graph fuel st.1
      (List.insertionSort (fun a b => a ≤ b) st.2) order

/-- The per-key node construction inside `CreateFeedForwardNetwork`
(the body of the Go loop over `allNodeKeysList`, with the pre-fetched
`identity`/`sum` defaults passed in). -/
def ffBuildNode (cfg : GenomeConfig) (g : Genome) (identityFn : ActTag)
    (sumAggFn : AggTag) (key : ℤ) : Except String NeuralNode :=
  match alookup key g.nodes with
  | some gn =>
    match GetActivation gn.activation with
    | .error e => .error e
    | .ok actFn =>
      match GetAggregation gn.aggregation with
      | .error e => .error e
      | .ok aggFn => .ok ⟨key, gn.bias, gn.response, actFn, aggFn, []⟩
  | none =>
    if key ∈ cfg.inputKeys then .ok ⟨key, 0, 1, identityFn, sumAggFn, []⟩
    else
      -- output key absent from the node map, or unexpected key:
      -- same defaults (the Go code only differs in a commented warning)
      .ok ⟨key, 0, 1, identityFn, sumAggFn, []⟩

/-- Error-propagating map, mirroring the Go `for` loop that returns the
first error (`mapM` for `Except`, written structurally). -/
def mapME {α β : Type} (f : α → Except String β) :
    List α → Except String (List β)
  | [] => .ok []
  | x :: xs =>
    match f x with
    | .error e => .error e
    | .ok y =>
      match mapME f xs with
      | .error e => .error e
      | .ok ys => .ok (y :: ys)

/-- `CreateFeedForwardNetwork` from `feedforward.go`. -/
def CreateFeedForwardNetwork (cfg : GenomeConfig) (g : Genome) :
    Except String FeedForwardNetwork :=
  if ¬ cfg.feedForward then
    .error "cannot create FeedForwardNetwork for a genome configured with FeedForward=false"
  else
    let enabledConnections := g.connections.filter (fun p => p.2.enabled)
    -- step 1: the union of input keys, output keys, genome node keys and
    -- enabled-connection endpoints, sorted ascending for deterministic
    -- index assignment
    let allNodeKeysList := List.insertionSort (fun a b => a ≤ b)
      ((cfg.inputKeys ++ cfg.outputKeys ++ g.nodes.map Prod.fst ++
        enabledConnections.map (fun p => p.1.inNodeID) ++
        enabledConnections.map (fun p => p.1.outNodeID)).dedup)
    let numNodes := allNodeKeysList.length
    let nodeKeyToIndex := fun (k : ℤ) => allNodeKeysList.indexOf k
    match GetActivation "identity" with
    | .error e => .error e
    | .ok identityFn =>
      match GetAggregation "sum" with
      | .error e => .error e
      | .ok sumAggFn =>
        -- step 2: build the node slice (defaults for pure inputs and for
        -- keys missing from the genome's node map)
        match mapME (ffBuildNode cfg g identityFn sumAggFn)
            allNodeKeysList with
        | .error e => .error e
        | .ok nodesSlice₀ =>
          -- step 3: attach each enabled connection to its target's input
          -- list
          let nodesSlice := enabledConnections.foldl
            (fun ns p =>
              lmodify ns (nodeKeyToIndex p.1.outNodeID)
                (fun n => { n with inputs :=
                  n.inputs ++ [⟨nodeKeyToIndex p.1.inNodeID, p.2.weight⟩] }))
            nodesSlice₀
          -- step 4: in-degrees and adjacency lists, then Kahn's algorithm
          let ig := (List.range numNodes).foldl
            (fun (st : List ℕ × List (List ℕ)) t =>
              (nodesSlice.getD t default).inputs.foldl
                (fun (st : List ℕ × List (List ℕ)) ic =>
                  (lmodify st.1 t (fun d => d + 1),
                   lmodify st.2 ic.inputNodeIndex (fun l => l ++ [t])))
                st)
            (List.replicate numNodes 0, List.replicate numNodes [])
          let inDegree := ig.1
          let graph := ig.2
          let queue := List.insertionSort (fun a b => a ≤ b)
            ((List.range numNodes).filter (fun i => inDegree.getD i 0 = 0))
          let fullEvalOrderIndices :=
            kahnLoop graph (numNodes + 1) inDegree queue []
          if ¬ fullEvalOrderIndices.length = numNodes then
            .error "failed topological sort: cycle detected or graph issue"
          else
            -- step 5: drop input-node indices from the evaluation order
            let inputIndexSet := cfg.inputKeys.map nodeKeyToIndex
            let finalEvalOrder := fullEvalOrderIndices.filter
              (fun i => ¬ i ∈ inputIndexSet)
            -- step 6: input/output index lists in configured order
            let inputIndices := cfg.inputKeys.map nodeKeyToIndex
            let outputIndices := cfg.outputKeys.map nodeKeyToIndex
            .ok ⟨inputIndices, outputIndices, finalEvalOrder, nodesSlice,
              numNodes⟩

/-- `FeedForwardNetwork.Activate` from `feedforward.go`, parametrised by
the numeric interpretations `actI`/`aggI` of the stored activation and
aggregation function values. -/
def FFActivate (actI : ActTag → ℚ → ℚ) (aggI : AggTag → List ℚ → ℚ)
    (net : FeedForwardNetwork) (inputs : List ℚ) :
    Except String (List ℚ) :=
  if ¬ inputs.length = net.inputIndices.length then
    .error "mismatch between input count and network input nodes"
  else
    let nodeValues := List.replicate net.numNodes (0 : ℚ)
    let nodeValues := (net.inputIndices.zip inputs).foldl
      (fun nv p => nv.set p.1 p.2) nodeValues
    let nodeValues := net.nodeEvalOrder.foldl
      (fun nv nodeIndex =>
        let node := net.nodes.getD nodeIndex default
        let incInputs := node.inputs.map
          (fun conn => nv.getD conn.inputNodeIndex 0 * conn.weight)
        let aggregated := aggI node.aggregationFn incInputs
        let activationInput := (aggregated + node.bias) * node.response
        nv.set nodeIndex (actI node.activationFn activationInput))
      nodeValues
    .ok (net.outputIndices.map (fun i => nodeValues.getD i 0))

/-! ## Shared concrete configuration for witnesses and counterexamples -/

/-- A typical configuration (xor-like: two inputs, one output), used as
the base for the concrete scenarios below. -/
def baseConfig : GenomeConfig where
  numInputs := 2
  numOutputs := 1
  numHidden := 0
  feedForward := true
  compatibilityDisjointCoefficient := 1
  compatibilityWeightCoefficient := 1/2
  connAddProb := 0
  connDeleteProb := 0
  nodeAddProb := 0
  nodeDeleteProb := 0
  singleStructuralMutation := false
  initialConnection := "unconnected"
  biasInitMean := 0
  biasInitStdev := 1
  biasInitType := "gaussian"
  biasReplaceRate := 0
  biasMutateRate := 0
  biasMutatePower := 1/2
  biasMaxValue := 30
  biasMinValue := -30
  responseInitMean := 1
  responseInitStdev := 0
  responseInitType := "gaussian"
  responseReplaceRate := 0
  responseMutateRate := 0
  responseMutatePower := 0
  responseMaxValue := 30
  responseMinValue := -30
  activationDefault := "identity"
  activationOptions := ["identity"]
  activationMutateRate := 0
  aggregationDefault := "sum"
  aggregationOptions := ["sum"]
  aggregationMutateRate := 0
  weightInitMean := 0
  weightInitStdev := 1
  weightInitType := "gaussian"
  weightReplaceRate := 0
  weightMutateRate := 0
  weightMutatePower := 1/2
  weightMaxValue := 30
  weightMinValue := -30
  enabledDefault := "true"
  enabledMutateRate := 0
  enabledRateToTrueAdd := 0
  enabledRateToFalseAdd := 0
  inputKeys := [-1, -2]
  outputKeys := [0]
  nodeKeyIndex := 1

/-! ## Claim C3: spawn normalization scenario -/

/-- Helper: `⌈(-13 : ℚ)⌉ = -13` (numeric fact needed because this
Mathlib version has no `norm_num` extension for floors). -/
theorem ceil_neg_thirteen : (⌈(-13 : ℚ)⌉ : ℤ) = -13 := by
  rw [show ((-13 : ℚ)) = ((-13 : ℤ) : ℚ) by norm_num]
  exact Int.ceil_intCast _

/-- Claim C3: with `pop_size = 100`, adjusted fitnesses `0.75`/`0.25`,
previous sizes `50`/`50`, `min_species_size = 1` and `elitism = 0`
(so the floor passed in is `max(1,0) = 1`), `computeSpawnAmounts`
returns spawns that total exactly `100` with every entry at least `1`
(concretely `[63, 37]`), for every shuffle order. -/
theorem computeSpawnAmounts_normalization_scenario
    (shuffledIndices : List ℕ) :
    computeSpawnAmounts [3/4, 1/4] 1 [50, 50] 100 1 shuffledIndices
        = [63, 37] ∧
      (computeSpawnAmounts [3/4, 1/4] 1 [50, 50] 100 1
          shuffledIndices).foldl (· + ·) 0 = 100 ∧
      (computeSpawnAmounts [3/4, 1/4] 1 [50, 50] 100 1
          shuffledIndices).all (fun s => decide (1 ≤ s)) = true := by
  have h : computeSpawnAmounts [3/4, 1/4] 1 [50, 50] 100 1
      shuffledIndices = [63, 37] := by
    norm_num [computeSpawnAmounts, goRound]
    norm_num [ceil_neg_thirteen]
  refine ⟨h, ?_, ?_⟩ <;> rw [h] <;> decide

/-! ## Claim C5: activation/aggregation registry lookups -/

/-- Claim C5 (counterexample): the spec's closed sets include `sin`,
`cos` and `maxabs`, but the registries do not — `GetActivation "sin"`
and `GetAggregation "maxabs"` return lookup errors instead of
succeeding. -/
theorem getActivation_sin_and_getAggregation_maxabs_fail :
    GetActivation "sin" =
        Except.error "unknown activation function: sin" ∧
      GetActivation "cos" =
        Except.error "unknown activation function: cos" ∧
      GetAggregation "maxabs" =
        Except.error "unknown aggregation function: maxabs" := by
  refine ⟨?_, ?_, ?_⟩ <;> rfl

/-- Claim C5 (amended): every name actually registered succeeds —
for activations `sigmoid`, `tanh`, `relu`, `identity`, `clamped`,
`gaussian`, `absolute`/`abs`, `sine`, `cosine`, `inv`, `log`, `exp`,
`hat`, `square`, `cube` (the registry spells `sin`/`cos` as
`sine`/`cosine`), and for aggregations `sum`, `product`, `min`, `max`,
`mean`, `median`, `average` (`maxabs` is not registered); every name
outside a registry yields that registry's lookup error. -/
theorem registry_lookup_amended :
    ((["sigmoid", "tanh", "relu", "identity", "clamped", "gaussian",
        "absolute", "abs", "sine", "cosine", "inv", "log", "exp", "hat",
        "square", "cube"].all (fun n => (GetActivation n).isOk)) = true) ∧
      ((["sum", "product", "min", "max", "mean", "median",
        "average"].all (fun n => (GetAggregation n).isOk)) = true) ∧
      (∀ name, ¬ name ∈ ActivationFunctions.map Prod.fst →
        GetActivation name =
          Except.error ("unknown activation function: " ++ name)) ∧
      (∀ name, ¬ name ∈ AggregationFunctions.map Prod.fst →
        GetAggregation name =
          Except.error ("unknown aggregation function: " ++ name)) := by
  refine ⟨by decide, by decide, ?_, ?_⟩
  · intro name h
    have hn : alookup name ActivationFunctions = none :=
      alookup_eq_none.mpr h
    simp [GetActivation, hn]
  · intro name h
    have hn : alookup name AggregationFunctions = none :=
      alookup_eq_none.mpr h
    simp [GetAggregation, hn]

/-- Witness for `registry_lookup_amended` at the unknown name
`"maxabs"` (for activations) and `"sin"` (for aggregations). -/
theorem registry_lookup_amended_witness :
    (¬ "maxabs" ∈ ActivationFunctions.map Prod.fst) ∧
      GetActivation "maxabs" =
        Except.error ("unknown activation function: " ++ "maxabs") ∧
      (¬ "sin" ∈ AggregationFunctions.map Prod.fst) ∧
      GetAggregation "sin" =
        Except.error ("unknown aggregation function: " ++ "sin") :=
  ⟨by decide, registry_lookup_amended.2.2.1 "maxabs" (by decide),
    by decide, registry_lookup_amended.2.2.2 "sin" (by decide)⟩

/-! ## Claim C10: add-node on an empty connection map is a no-op -/

/-- Claim C10: when the genome has no connections, `mutateAddNode`
returns immediately — the genome, the configuration (in particular the
hidden-node key counter) and the random state are all unchanged. -/
theorem mutateAddNode_no_connections_noop (cfg : GenomeConfig)
    (g : Genome) (rng : Rng) (h : g.connections = []) :
    mutateAddNode cfg g rng = (g, cfg, rng) := by
  unfold mutateAddNode
  rw [h]
  rfl

/-- Witness for `mutateAddNode_no_connections_noop` on a concrete
connection-free genome. -/
theorem mutateAddNode_no_connections_noop_witness :
    mutateAddNode baseConfig (NewGenome 7) ⟨[1/3], [5]⟩ =
      (NewGenome 7, baseConfig, ⟨[1/3], [5]⟩) :=
  mutateAddNode_no_connections_noop baseConfig (NewGenome 7)
    ⟨[1/3], [5]⟩ rfl

/-! ## Claim C1: stagnation with species elitism -/

/-- The two-species scenario of the claim: both species have gone
`max_stagnation + 1 = 16` generations without improvement
(`last_improved = 0`, current generation `16`, `max_stagnation = 15`),
`species_elitism = 1`, species fitness function `mean`. -/
def speciesLowFit : SpeciesSt :=
  ⟨1, [1], [GoFloat.fin 1], 0, GoFloat.ninf, 0⟩

/-- The fitter of the two species in the C1 scenario. -/
def speciesHighFit : SpeciesSt :=
  ⟨2, [2], [GoFloat.fin 2], 0, GoFloat.ninf, 0⟩

/-- Claim C1 (code bug): the spec (and the code's own comments) say the
less-fit species is marked stagnant, leaving exactly the fitter one; the
code's second "revised logic" block instead un-marks it after
`numNonStagnant` has already been decremented, so `Stagnation.Update`
marks *neither* species stagnant and both survive into reproduction. -/
theorem stagnation_two_stagnant_species_neither_marked :
    (StagnationUpdate goMean 15 1
        [(1, speciesLowFit), (2, speciesHighFit)] 16).map
      (fun r => (r.1, r.2.2)) = [(1, false), (2, false)] := by
  norm_num [StagnationUpdate, stagnationRefresh, stagnationMark,
    speciesLowFit, speciesHighFit, goMean, goSum, MaxFloatG, GoFloat.gt,
    GoFloat.leB, List.insertionSort, List.orderedInsert]

/-! ## Claim C8: all-time best fitness across generations -/

/-- Two genomes (heap identities 1 and 2), two generations: generation
one evaluates them to fitness 10 and 5; genome 1 is carried into the
next population by reference (an elite) and generation two re-evaluates
it to 3 (and genome 2 to 4). -/
def popSimStart : PopSim := ⟨[(1, 0), (2, 0)], [1, 2], none⟩

/-- Claim C8 (counterexample): after the first generation the tracked
all-time best fitness is `10`; re-evaluating the aliased elite lowers
its stored fitness, and the tracked best fitness drops to `4` — the
all-time best fitness is not monotonically non-decreasing. -/
theorem best_fitness_decreases_after_elite_reevaluation :
    bestFitness (runGenerationTracking popSimStart [(1, 10), (2, 5)]) =
        some 10 ∧
      bestFitness
        (runGenerationTracking
          (runGenerationTracking popSimStart [(1, 10), (2, 5)])
          [(1, 3), (2, 4)]) = some 4 := by
  norm_num [popSimStart, runGenerationTracking, bestFitness, evalPop,
    findBestGenome, heapFitness, ainsert, aupdate, alookup, GoFloat.gt]

/-- Claim C8 (amended): across a `RunGeneration` step, the tracked best
fitness is non-decreasing provided the evaluation does not overwrite the
fitness field of the genome object the best pointer refers to (which can
happen exactly when that object is an elite of the current population,
transferred by reference and re-evaluated). -/
theorem best_fitness_monotone_without_fitness_overwrite (s : PopSim)
    (updates : List (ℤ × ℚ)) (b : ℤ) (hb : s.bestId = some b)
    (hpreserved : alookup b (evalPop updates s.heap) = alookup b s.heap) :
    ∃ q q', bestFitness s = some q ∧
      bestFitness (runGenerationTracking s updates) = some q' ∧ q ≤ q' := by
  have hfit : heapFitness (evalPop updates s.heap) b =
      heapFitness s.heap b := by
    unfold heapFitness
    rw [hpreserved]
  unfold runGenerationTracking bestFitness
  simp only [hb]
  cases hcb : findBestGenome (evalPop updates s.heap) s.popIds with
  | none =>
    refine ⟨heapFitness s.heap b, heapFitness s.heap b, rfl, ?_,
      le_refl _⟩
    simp [hfit]
  | some c =>
    by_cases hgt : heapFitness (evalPop updates s.heap) b <
        heapFitness (evalPop updates s.heap) c
    · refine ⟨heapFitness s.heap b,
        heapFitness (evalPop updates s.heap) c, rfl, ?_, ?_⟩
      · simp [hgt]
      · rw [← hfit]
        exact le_of_lt hgt
    · refine ⟨heapFitness s.heap b, heapFitness s.heap b, rfl, ?_,
        le_refl _⟩
      rw [hfit] at hgt
      simp [hgt, hfit]

/-- Witness for `best_fitness_monotone_without_fitness_overwrite`: the
tracked best genome is not part of the evaluated population, so its
fitness field is untouched. -/
theorem best_fitness_monotone_without_fitness_overwrite_witness :
    (⟨[(1, 5), (2, 0)], [2], some 1⟩ : PopSim).bestId = some 1 ∧
      alookup (1 : ℤ)
          (evalPop [(2, 7)] (⟨[(1, 5), (2, 0)], [2], some 1⟩ : PopSim).heap) =
        alookup (1 : ℤ) (⟨[(1, 5), (2, 0)], [2], some 1⟩ : PopSim).heap ∧
      ∃ q q', bestFitness (⟨[(1, 5), (2, 0)], [2], some 1⟩ : PopSim) = some q ∧
        bestFitness (runGenerationTracking
          (⟨[(1, 5), (2, 0)], [2], some 1⟩ : PopSim) [(2, 7)]) = some q' ∧
        q ≤ q' :=
  ⟨rfl, rfl,
    best_fitness_monotone_without_fitness_overwrite
      ⟨[(1, 5), (2, 0)], [2], some 1⟩ [(2, 7)] 1 rfl rfl⟩

/-! ## Further association-list facts (used by the structural-mutation
claims) -/

theorem nextIntn_lt {n : ℕ} (hn : 0 < n) (r : Rng) :
    (Rng.nextIntn n r).1 < n := by
  obtain ⟨fs, is⟩ := r
  cases is with
  | nil => simpa [Rng.nextIntn] using hn
  | cons i is => simpa [Rng.nextIntn] using Nat.mod_lt _ hn

theorem getD_mem_of_lt {α : Type} (l : List α) (i : ℕ) (d : α)
    (h : i < l.length) : l.getD i d ∈ l := by
  induction l generalizing i with
  | nil => simp at h
  | cons x xs ih =>
    cases i with
    | zero => simp [List.getD]
    | succ j =>
      have hj : j < xs.length := by simpa using h
      simpa [List.getD] using Or.inr (ih j hj)

theorem aupdate_map_fst {κ α : Type} [DecidableEq κ] (k : κ) (f : α → α)
    (l : List (κ × α)) : (aupdate k f l).map Prod.fst = l.map Prod.fst := by
  induction l with
  | nil => rfl
  | cons p l ih =>
    by_cases h : p.1 = k <;> simp [aupdate, h] <;>
      simpa [aupdate] using ih

theorem length_aupdate {κ α : Type} [DecidableEq κ] (k : κ) (f : α → α)
    (l : List (κ × α)) : (aupdate k f l).length = l.length := by
  unfold aupdate
  exact List.length_map _ _

theorem alookup_append_right {κ α : Type} [DecidableEq κ] {k : κ}
    {l₁ l₂ : List (κ × α)} (h : alookup k l₁ = none) :
    alookup k (l₁ ++ l₂) = alookup k l₂ := by
  induction l₁ with
  | nil => rfl
  | cons p l ih =>
    by_cases hp : p.1 = k
    · simp [alookup, hp] at h
    · simp only [alookup, hp, if_neg, not_false_iff, List.cons_append] at h ⊢
      exact ih h

theorem alookup_append_left {κ α : Type} [DecidableEq κ] {k : κ} {v : α}
    {l₁ l₂ : List (κ × α)} (h : alookup k l₁ = some v) :
    alookup k (l₁ ++ l₂) = some v := by
  induction l₁ with
  | nil => simp [alookup] at h
  | cons p l ih =>
    by_cases hp : p.1 = k
    · simp only [alookup, hp, if_pos, List.cons_append] at h ⊢
      exact h
    · simp only [alookup, hp, if_neg, not_false_iff, List.cons_append] at h ⊢
      exact ih h

theorem alookup_singleton {κ α : Type} [DecidableEq κ] (k : κ) (v : α) :
    alookup k [(k, v)] = some v := by
  simp [alookup]

theorem alookup_singleton_ne {κ α : Type} [DecidableEq κ] {a k : κ}
    (h : ¬ a = k) (v : α) : alookup k [(a, v)] = none := by
  simp [alookup, h]

theorem alookup_append_singleton_ne {κ α : Type} [DecidableEq κ]
    {a k : κ} (h : ¬ k = a) (v : α) (l : List (κ × α)) :
    alookup k (l ++ [(a, v)]) = alookup k l := by
  cases halo : alookup k l with
  | some w => rw [alookup_append_left halo]
  | none =>
    rw [alookup_append_right halo,
      alookup_singleton_ne (fun hc => h hc.symm)]

/-! ## Claim C4: the add-node mutation splits one connection -/

/-- The connection key `mutateAddNode` picks (`keys[rand.Intn(len(keys))]`). -/
def chosenSplitKey (g : Genome) (rng : Rng) : ConnectionKey :=
  (g.connections.map Prod.fst).getD
    ((rng.nextIntn (g.connections.map Prod.fst).length).1) ⟨0, 0⟩

/-- Claim C4: on a genome with at least one connection (with distinct
connection keys, each gene keyed by its map key, and a fresh hidden-node
counter), `mutateAddNode` disables the chosen connection `(u,v)`, adds a
new hidden node under the fresh key `h`, adds `(u,h)` with weight `1.0`
enabled and `(h,v)` with the original weight enabled, adds or removes no
other connection or node, and advances the hidden-node counter. -/
theorem mutateAddNode_splits_connection (cfg : GenomeConfig) (g : Genome)
    (rng : Rng) (hne : ¬ g.connections = [])
    (hkeyed : ∀ p ∈ g.connections, (p.2 : ConnectionGene).key = p.1)
    (hfreshC : ∀ ck ∈ g.connections.map Prod.fst,
      ¬ (ck : ConnectionKey).inNodeID = cfg.nodeKeyIndex ∧
        ¬ (ck : ConnectionKey).outNodeID = cfg.nodeKeyIndex)
    (hfreshN : ¬ cfg.nodeKeyIndex ∈ g.nodes.map Prod.fst) :
    ∃ c, alookup (chosenSplitKey g rng) g.connections = some c ∧
      alookup (chosenSplitKey g rng)
          (mutateAddNode cfg g rng).1.connections =
        some { c with enabled := false } ∧
      (alookup cfg.nodeKeyIndex (mutateAddNode cfg g rng).1.nodes).isSome
        = true ∧
      alookup (⟨(chosenSplitKey g rng).inNodeID, cfg.nodeKeyIndex⟩ :
            ConnectionKey)
          (mutateAddNode cfg g rng).1.connections =
        some ⟨⟨(chosenSplitKey g rng).inNodeID, cfg.nodeKeyIndex⟩, 1,
          true⟩ ∧
      alookup (⟨cfg.nodeKeyIndex, (chosenSplitKey g rng).outNodeID⟩ :
            ConnectionKey)
          (mutateAddNode cfg g rng).1.connections =
        some ⟨⟨cfg.nodeKeyIndex, (chosenSplitKey g rng).outNodeID⟩,
          c.weight, true⟩ ∧
      (mutateAddNode cfg g rng).1.connections.length =
        g.connections.length + 2 ∧
      (∀ k', ¬ k' = chosenSplitKey g rng →
        ¬ k' = ⟨(chosenSplitKey g rng).inNodeID, cfg.nodeKeyIndex⟩ →
        ¬ k' = ⟨cfg.nodeKeyIndex, (chosenSplitKey g rng).outNodeID⟩ →
        alookup k' (mutateAddNode cfg g rng).1.connections =
          alookup k' g.connections) ∧
      (∀ n', ¬ n' = cfg.nodeKeyIndex →
        alookup n' (mutateAddNode cfg g rng).1.nodes =
          alookup n' g.nodes) ∧
      (mutateAddNode cfg g rng).2.1.nodeKeyIndex = cfg.nodeKeyIndex + 1 := by
  have hlen : ¬ g.connections.length = 0 := by
    simpa [List.length_eq_zero] using hne
  have hlenpos : 0 < (g.connections.map Prod.fst).length := by
    rw [List.length_map]
    omega
  -- the chosen key is a key of the map, hence the lookup succeeds
  have hkmem : chosenSplitKey g rng ∈ g.connections.map Prod.fst :=
    getD_mem_of_lt _ _ _ (nextIntn_lt hlenpos rng)
  obtain ⟨c, hc⟩ : ∃ c, alookup (chosenSplitKey g rng) g.connections
      = some c :=
    Option.isSome_iff_exists.mp (alookup_isSome.mpr hkmem)
  have hckey : c.key = chosenSplitKey g rng := hkeyed _ (mem_alookup hc)
  have hfk := hfreshC _ hkmem
  -- name the intermediate states of the mutation
  set h := cfg.nodeKeyIndex with hh
  set k := chosenSplitKey g rng with hkdef
  set conns₁ :=
    aupdate k (fun c => { c with enabled := false }) g.connections
    with hconns₁
  set cfg' : GenomeConfig := { cfg with nodeKeyIndex := cfg.nodeKeyIndex + 1 }
    with hcfg'
  set rng₁ := (rng.nextIntn (g.connections.map Prod.fst).length).2
    with hrng₁
  set nn := NewNodeGene h cfg' rng₁ with hnn
  set ck1 : ConnectionKey := ⟨c.key.inNodeID, h⟩ with hck1
  set nc1 := NewConnectionGene ck1 cfg' nn.2 with hnc1
  set conn1 := { nc1.1 with weight := 1, enabled := true } with hconn1
  set ck2 : ConnectionKey := ⟨h, c.key.outNodeID⟩ with hck2
  set nc2 := NewConnectionGene ck2 cfg' nc1.2 with hnc2
  set conn2 := { nc2.1 with weight := c.weight, enabled := true } with hconn2
  -- the fresh key is not a key of the connection map
  have hck1_not : alookup ck1 conns₁ = none := by
    rw [alookup_eq_none, hconns₁, aupdate_map_fst]
    intro hmem
    exact (hfreshC _ hmem).2 (by rw [hck1])
  have hck2_not₁ : alookup ck2 conns₁ = none := by
    rw [alookup_eq_none, hconns₁, aupdate_map_fst]
    intro hmem
    exact (hfreshC _ hmem).1 (by rw [hck2])
  have hck1_ne_ck2 : ¬ ck1 = ck2 := by
    rw [hck1, hck2]
    intro hcontra
    apply hfk.1
    rw [← hckey]
    exact congrArg ConnectionKey.inNodeID hcontra
  -- unfold the mutation into its explicit result
  have hview : mutateAddNode cfg g rng =
      (⟨g.key, ainsert h nn.1 g.nodes,
        ainsert ck2 conn2 (ainsert ck1 conn1 conns₁), g.fitness⟩,
        cfg', nc2.2) := by
    have hcU : alookup ((g.connections.map Prod.fst).getD
        ((rng.nextIntn (g.connections.map Prod.fst).length).1)
        (⟨0, 0⟩ : ConnectionKey)) g.connections = some c := hc
    simp only [mutateAddNode, hlen, if_false, ite_false, hcU,
      Option.getD_some]
    rfl
  have hconns₂ : ainsert ck1 conn1 conns₁ = conns₁ ++ [(ck1, conn1)] := by
    unfold ainsert
    rw [hck1_not]
    rfl
  have hck2_not₂ : alookup ck2 (conns₁ ++ [(ck1, conn1)]) = none := by
    rw [alookup_append_right hck2_not₁, alookup_singleton_ne hck1_ne_ck2]
  have hconns₃ : ainsert ck2 conn2 (ainsert ck1 conn1 conns₁) =
      conns₁ ++ [(ck1, conn1)] ++ [(ck2, conn2)] := by
    rw [hconns₂]
    unfold ainsert
    rw [hck2_not₂]
    rfl
  have hk_ne_ck1 : ¬ k = ck1 := by
    intro hcontra
    rw [hck1] at hcontra
    exact hfk.2 (congrArg ConnectionKey.outNodeID hcontra)
  have hk_ne_ck2 : ¬ k = ck2 := by
    intro hcontra
    rw [hck2] at hcontra
    exact hfk.1 (congrArg ConnectionKey.inNodeID hcontra)
  have hnodes_not : alookup h g.nodes = none := alookup_eq_none.mpr hfreshN
  have hnodes : ainsert h nn.1 g.nodes = g.nodes ++ [(h, nn.1)] := by
    unfold ainsert
    rw [hnodes_not]
    rfl
  refine ⟨c, hc, ?_, ?_, ?_, ?_, ?_, ?_, ?_, ?_⟩
  · -- the chosen connection is disabled
    rw [hview]
    show alookup k (ainsert ck2 conn2 (ainsert ck1 conn1 conns₁)) = _
    have h1 : alookup k conns₁ = some { c with enabled := false } := by
      rw [hconns₁, alookup_aupdate_self, hc]
      rfl
    rw [hconns₃]
    exact alookup_append_left (alookup_append_left h1)
  · -- the new hidden node exists
    rw [hview]
    show (alookup h (ainsert h nn.1 g.nodes)).isSome = true
    rw [hnodes, alookup_append_right hnodes_not, alookup_singleton]
    rfl
  · -- the (u, h) connection
    rw [hview]
    show alookup (⟨k.inNodeID, h⟩ : ConnectionKey)
        (ainsert ck2 conn2 (ainsert ck1 conn1 conns₁)) = _
    have hkey1 : (⟨k.inNodeID, h⟩ : ConnectionKey) = ck1 := by
      rw [hck1, hckey]
    rw [hkey1]
    have h1 : alookup ck1 (conns₁ ++ [(ck1, conn1)]) = some conn1 := by
      rw [alookup_append_right hck1_not, alookup_singleton]
    rw [hconns₃]
    rw [alookup_append_left h1]
    rfl
  · -- the (h, v) connection
    rw [hview]
    show alookup (⟨h, k.outNodeID⟩ : ConnectionKey)
        (ainsert ck2 conn2 (ainsert ck1 conn1 conns₁)) = _
    have hkey2 : (⟨h, k.outNodeID⟩ : ConnectionKey) = ck2 := by
      rw [hck2, hckey]
    rw [hkey2, hconns₃, alookup_append_right hck2_not₂, alookup_singleton]
    rfl
  · -- exactly two connections are added
    rw [hview]
    show (ainsert ck2 conn2 (ainsert ck1 conn1 conns₁)).length = _
    rw [hconns₃]
    simp [hconns₁, aupdate]
  · -- no other connection is touched
    intro k' hk'1 hk'2 hk'3
    rw [hview]
    show alookup k' (ainsert ck2 conn2 (ainsert ck1 conn1 conns₁)) = _
    have hk'ck1 : ¬ k' = ck1 := by
      rw [hck1]
      intro hcontra
      exact hk'2 (by rw [hcontra, hckey])
    have hk'ck2 : ¬ k' = ck2 := by
      rw [hck2]
      intro hcontra
      exact hk'3 (by rw [hcontra, hckey])
    rw [hconns₃, alookup_append_singleton_ne hk'ck2,
      alookup_append_singleton_ne hk'ck1, hconns₁]
    exact alookup_aupdate_ne (fun hx => hk'1 hx.symm)
  · -- no other node is touched
    intro n' hn'
    rw [hview]
    show alookup n' (ainsert h nn.1 g.nodes) = _
    rw [hnodes, alookup_append_singleton_ne hn']
  · -- the hidden-node counter advanced
    rw [hview]

/-- Witness for `mutateAddNode_splits_connection`: the spec's scenario 2 —
a genome with the single connection `(-1, 0)` of weight `0.5`; the split
yields hidden node `1`, connection `(-1, 1)` with weight `1` and
connection `(1, 0)` with weight `0.5`, and the original is disabled. -/
def genomeOneConn : Genome :=
  ⟨0, [(0, ⟨0, 0, 1, "identity", "sum"⟩)],
    [(⟨-1, 0⟩, ⟨⟨-1, 0⟩, 1/2, true⟩)], 0⟩

theorem mutateAddNode_splits_connection_witness :
    ∃ c, alookup (chosenSplitKey genomeOneConn ⟨[], []⟩)
        genomeOneConn.connections = some c ∧
      alookup (chosenSplitKey genomeOneConn ⟨[], []⟩)
          (mutateAddNode baseConfig genomeOneConn ⟨[], []⟩).1.connections =
        some { c with enabled := false } ∧
      (alookup baseConfig.nodeKeyIndex
          (mutateAddNode baseConfig genomeOneConn ⟨[], []⟩).1.nodes).isSome
        = true ∧
      alookup (⟨(chosenSplitKey genomeOneConn ⟨[], []⟩).inNodeID,
            baseConfig.nodeKeyIndex⟩ : ConnectionKey)
          (mutateAddNode baseConfig genomeOneConn ⟨[], []⟩).1.connections =
        some ⟨⟨(chosenSplitKey genomeOneConn ⟨[], []⟩).inNodeID,
          baseConfig.nodeKeyIndex⟩, 1, true⟩ ∧
      alookup (⟨baseConfig.nodeKeyIndex,
            (chosenSplitKey genomeOneConn ⟨[], []⟩).outNodeID⟩ :
            ConnectionKey)
          (mutateAddNode baseConfig genomeOneConn ⟨[], []⟩).1.connections =
        some ⟨⟨baseConfig.nodeKeyIndex,
          (chosenSplitKey genomeOneConn ⟨[], []⟩).outNodeID⟩, c.weight,
          true⟩ ∧
      (mutateAddNode baseConfig genomeOneConn ⟨[], []⟩).1.connections.length
        = genomeOneConn.connections.length + 2 ∧
      (∀ k', ¬ k' = chosenSplitKey genomeOneConn ⟨[], []⟩ →
        ¬ k' = ⟨(chosenSplitKey genomeOneConn ⟨[], []⟩).inNodeID,
          baseConfig.nodeKeyIndex⟩ →
        ¬ k' = ⟨baseConfig.nodeKeyIndex,
          (chosenSplitKey genomeOneConn ⟨[], []⟩).outNodeID⟩ →
        alookup k' (mutateAddNode baseConfig genomeOneConn
            ⟨[], []⟩).1.connections =
          alookup k' genomeOneConn.connections) ∧
      (∀ n', ¬ n' = baseConfig.nodeKeyIndex →
        alookup n' (mutateAddNode baseConfig genomeOneConn
            ⟨[], []⟩).1.nodes =
          alookup n' genomeOneConn.nodes) ∧
      (mutateAddNode baseConfig genomeOneConn ⟨[], []⟩).2.1.nodeKeyIndex =
        baseConfig.nodeKeyIndex + 1 :=
  mutateAddNode_splits_connection baseConfig genomeOneConn ⟨[], []⟩
    (by decide)
    (by intro p hp; simp [genomeOneConn] at hp; rw [hp])
    (by intro ck hck; simp [genomeOneConn] at hck; rw [hck]; exact
      ⟨by decide, by decide⟩)
    (by decide)

/-! ## Claim C9: the compatibility distance is symmetric and zero on
equal genomes -/

instance : Inhabited ConnectionGene := ⟨⟨⟨0, 0⟩, 0, true⟩⟩

/-- Number of connection genes of `A` whose key is absent from `B`
(the disjoint/excess count contributed by `A`). -/
def disjOf (A B : List (ConnectionKey × ConnectionGene)) : ℕ :=
  A.countP (fun p => (alookup p.1 B).isNone)

/-- Number of connection genes of `A` whose key is present in `B`. -/
def matchCount (A B : List (ConnectionKey × ConnectionGene)) : ℕ :=
  A.countP (fun p => (alookup p.1 B).isSome)

/-- Summed per-gene distances over the homologous pairs, iterating `A`. -/
def wsumOf (cfg : GenomeConfig)
    (A B : List (ConnectionKey × ConnectionGene)) : ℚ :=
  (A.map (fun p =>
    match alookup p.1 B with
    | some conn2 => ConnectionGeneDistance cfg p.2 conn2
    | none => 0)).sum

/-- The gene stored at key `k`. -/
def valAt (A : List (ConnectionKey × ConnectionGene))
    (k : ConnectionKey) : ConnectionGene :=
  (alookup k A).getD default

theorem distance_fold_eq (cfg : GenomeConfig)
    (B A : List (ConnectionKey × ConnectionGene)) (init : ℕ × ℚ × ℕ) :
    A.foldl (fun (st : ℕ × ℚ × ℕ) p =>
        match alookup p.1 B with
        | some conn2 =>
          (st.1, st.2.1 + ConnectionGeneDistance cfg p.2 conn2, st.2.2 + 1)
        | none => (st.1 + 1, st.2.1, st.2.2)) init =
      (init.1 + disjOf A B, init.2.1 + wsumOf cfg A B,
        init.2.2 + matchCount A B) := by
  induction A generalizing init with
  | nil => simp [disjOf, wsumOf, matchCount]
  | cons p rest ih =>
    cases halo : alookup p.1 B with
    | none =>
      simp only [List.foldl_cons, halo, ih, disjOf, wsumOf, matchCount,
        List.countP_cons, List.map_cons, List.sum_cons, halo,
        Option.isNone_none, Option.isSome_none]
      refine Prod.ext ?_ (Prod.ext ?_ ?_) <;> simp <;> ring
    | some c2 =>
      simp only [List.foldl_cons, halo, ih, disjOf, wsumOf, matchCount,
        List.countP_cons, List.map_cons, List.sum_cons, halo,
        Option.isNone_some, Option.isSome_some]
      refine Prod.ext ?_ (Prod.ext ?_ ?_) <;> simp <;> ring

theorem disj2_fold_eq (A B : List (ConnectionKey × ConnectionGene))
    (init : ℕ) :
    B.foldl (fun d p => if (alookup p.1 A).isSome then d else d + 1)
        init = init + disjOf B A := by
  induction B generalizing init with
  | nil => simp [disjOf]
  | cons p rest ih =>
    cases halo : alookup p.1 A with
    | none =>
      simp only [List.foldl_cons, halo, ih, disjOf, List.countP_cons,
        Option.isSome_none, Option.isNone_none]
      simp
      omega
    | some c2 =>
      simp only [List.foldl_cons, halo, ih, disjOf, List.countP_cons,
        Option.isSome_some, Option.isNone_some]
      simp

/-- `Genome.Distance` as a closed formula over `disjOf` / `wsumOf` /
`matchCount`. -/
theorem GenomeDistance_eq (cfg : GenomeConfig) (a b : Genome) :
    GenomeDistance cfg a b =
      (if matchCount a.connections b.connections > 0 then
        cfg.compatibilityDisjointCoefficient *
            ((disjOf a.connections b.connections +
              disjOf b.connections a.connections : ℕ) : ℚ) /
            (if (max a.connections.length b.connections.length : ℚ) < 1
              then 1 else (max a.connections.length b.connections.length : ℚ)) +
          cfg.compatibilityWeightCoefficient *
            (wsumOf cfg a.connections b.connections /
              (matchCount a.connections b.connections : ℚ))
      else
        cfg.compatibilityDisjointCoefficient *
            ((disjOf a.connections b.connections +
              disjOf b.connections a.connections : ℕ) : ℚ) /
            (if (max a.connections.length b.connections.length : ℚ) < 1
              then 1
              else (max a.connections.length b.connections.length : ℚ))) := by
  simp only [GenomeDistance]
  rw [distance_fold_eq, disj2_fold_eq]
  simp

theorem matchCount_eq_card_inter
    {A B : List (ConnectionKey × ConnectionGene)} (hA : NodupKeys A) :
    matchCount A B =
      ((A.map Prod.fst).toFinset ∩ (B.map Prod.fst).toFinset).card := by
  unfold matchCount
  rw [show (fun p : ConnectionKey × ConnectionGene =>
      (alookup p.1 B).isSome) =
      ((fun k => (alookup k B).isSome) ∘ Prod.fst) from rfl]
  rw [← List.countP_map, List.countP_eq_length_filter,
    ← List.toFinset_card_of_nodup (List.Nodup.filter _ hA),
    List.toFinset_filter]
  congr 1
  ext k
  simp [List.mem_toFinset, alookup_isSome]

theorem wsum_eq (cfg : GenomeConfig)
    {A B : List (ConnectionKey × ConnectionGene)} (hA : NodupKeys A)
    (hB : NodupKeys B) :
    wsumOf cfg A B =
      ∑ k ∈ ((A.map Prod.fst).toFinset ∩ (B.map Prod.fst).toFinset),
        ConnectionGeneDistance cfg (valAt A k) (valAt B k) := by
  induction A with
  | nil => simp [wsumOf]
  | cons p rest ih =>
    have hA' : NodupKeys rest := (List.nodup_cons.mp hA).2
    have hpnot : p.1 ∉ rest.map Prod.fst := (List.nodup_cons.mp hA).1
    have hvalcons : ∀ k ∈ (rest.map Prod.fst).toFinset ∩
        (B.map Prod.fst).toFinset,
        ConnectionGeneDistance cfg (valAt rest k) (valAt B k) =
          ConnectionGeneDistance cfg (valAt (p :: rest) k) (valAt B k) := by
      intro k hk
      have hkrest : k ∈ rest.map Prod.fst := by
        have := Finset.mem_inter.mp hk
        exact List.mem_toFinset.mp this.1
      have hkp : ¬ p.1 = k := by
        intro hcontra
        exact hpnot (hcontra ▸ hkrest)
      have hlk : alookup k (p :: rest) = alookup k rest := by
        simp [alookup, hkp]
      unfold valAt
      rw [hlk]
    cases halo : alookup p.1 B with
    | some c2 =>
      have hpB : p.1 ∈ B.map Prod.fst := by
        rw [← alookup_isSome, halo]
        rfl
      have hpBF : p.1 ∈ (B.map Prod.fst).toFinset :=
        List.mem_toFinset.mpr hpB
      have hpnotF : p.1 ∉ (rest.map Prod.fst).toFinset ∩
          (B.map Prod.fst).toFinset := by
        intro hmem
        exact hpnot (List.mem_toFinset.mp (Finset.mem_inter.mp hmem).1)
      rw [show ((p :: rest).map Prod.fst).toFinset =
          insert p.1 (rest.map Prod.fst).toFinset by
            simp [List.toFinset_cons],
        Finset.insert_inter_of_mem hpBF, Finset.sum_insert hpnotF]
      have hvp : valAt (p :: rest) p.1 = p.2 := by
        simp [valAt, alookup]
      have hvB : valAt B p.1 = c2 := by
        simp [valAt, halo]
      rw [hvp, hvB]
      unfold wsumOf
      simp only [List.map_cons, List.sum_cons, halo]
      rw [show (rest.map (fun p =>
          match alookup p.1 B with
          | some conn2 => ConnectionGeneDistance cfg p.2 conn2
          | none => 0)).sum = wsumOf cfg rest B from rfl]
      rw [ih hA']
      rw [Finset.sum_congr rfl hvalcons]
    | none =>
      have hpB : p.1 ∉ (B.map Prod.fst).toFinset := fun hmem =>
        (alookup_eq_none.mp halo) (List.mem_toFinset.mp hmem)
      rw [show ((p :: rest).map Prod.fst).toFinset =
          insert p.1 (rest.map Prod.fst).toFinset by
            simp [List.toFinset_cons],
        Finset.insert_inter_of_not_mem hpB]
      unfold wsumOf
      simp only [List.map_cons, List.sum_cons, halo, zero_add]
      rw [show (rest.map (fun p =>
          match alookup p.1 B with
          | some conn2 => ConnectionGeneDistance cfg p.2 conn2
          | none => 0)).sum = wsumOf cfg rest B from rfl]
      rw [ih hA']
      rw [Finset.sum_congr rfl hvalcons]

theorem ConnectionGeneDistance_comm (cfg : GenomeConfig)
    (x y : ConnectionGene) :
    ConnectionGeneDistance cfg x y = ConnectionGeneDistance cfg y x := by
  unfold ConnectionGeneDistance
  rw [abs_sub_comm]
  congr 2
  by_cases h : x.enabled = y.enabled <;> simp [h, eq_comm]

/-- Claim C9: for genomes sharing a configuration (with well-formed,
duplicate-free connection maps), `Genome.Distance` is symmetric, and the
distance of a genome to itself is `0`.  In the rational model the
symmetry is exact (the Go computation is symmetric up to floating-point
rounding). -/
theorem genome_distance_symm_and_self_zero :
    (∀ cfg (a b : Genome), NodupKeys a.connections →
      NodupKeys b.connections →
      GenomeDistance cfg a b = GenomeDistance cfg b a) ∧
    (∀ cfg (a : Genome), NodupKeys a.connections →
      GenomeDistance cfg a a = 0) := by
  constructor
  · intro cfg a b hA hB
    have hm : matchCount a.connections b.connections =
        matchCount b.connections a.connections := by
      rw [matchCount_eq_card_inter hA, matchCount_eq_card_inter hB,
        Finset.inter_comm]
    have hw : wsumOf cfg a.connections b.connections =
        wsumOf cfg b.connections a.connections := by
      rw [wsum_eq cfg hA hB, wsum_eq cfg hB hA, Finset.inter_comm]
      exact Finset.sum_congr rfl
        (fun k _ => ConnectionGeneDistance_comm cfg _ _)
    have hd : disjOf a.connections b.connections +
        disjOf b.connections a.connections =
        disjOf b.connections a.connections +
          disjOf a.connections b.connections := Nat.add_comm _ _
    have hn : (max (a.connections.length : ℚ) b.connections.length) =
        max (b.connections.length : ℚ) a.connections.length :=
      max_comm _ _
    rw [GenomeDistance_eq, GenomeDistance_eq, hm, hw, hd, hn]
  · intro cfg a hA
    have hdz : disjOf a.connections a.connections = 0 := by
      unfold disjOf
      rw [List.countP_eq_zero]
      intro p hp
      rw [alookup_of_mem hA hp]
      simp
    have hwz : wsumOf cfg a.connections a.connections = 0 := by
      unfold wsumOf
      apply List.sum_eq_zero
      intro x hx
      rcases List.mem_map.mp hx with ⟨p, hp, hpe⟩
      rw [alookup_of_mem hA hp] at hpe
      rw [← hpe]
      unfold ConnectionGeneDistance
      simp
    rw [GenomeDistance_eq, hdz, hwz]
    by_cases hm : matchCount a.connections a.connections > 0 <;>
      simp [hm]

/-- Witness for `genome_distance_symm_and_self_zero` on two concrete
genomes (one shared connection key, one disjoint each). -/
def genomeDistA : Genome :=
  ⟨1, [], [(⟨-1, 0⟩, ⟨⟨-1, 0⟩, 1/2, true⟩),
    (⟨-2, 0⟩, ⟨⟨-2, 0⟩, 2, true⟩)], 0⟩

/-- Second concrete genome for the C9 witness. -/
def genomeDistB : Genome :=
  ⟨2, [], [(⟨-1, 0⟩, ⟨⟨-1, 0⟩, 3, false⟩),
    (⟨-1, 1⟩, ⟨⟨-1, 1⟩, 1, true⟩)], 0⟩

theorem genome_distance_symm_and_self_zero_witness :
    GenomeDistance baseConfig genomeDistA genomeDistB =
        GenomeDistance baseConfig genomeDistB genomeDistA ∧
      GenomeDistance baseConfig genomeDistA genomeDistA = 0 :=
  ⟨genome_distance_symm_and_self_zero.1 baseConfig genomeDistA genomeDistB
      (by show (genomeDistA.connections.map Prod.fst).Nodup; decide)
      (by show (genomeDistB.connections.map Prod.fst).Nodup; decide),
    genome_distance_symm_and_self_zero.2 baseConfig genomeDistA
      (by show (genomeDistA.connections.map Prod.fst).Nodup; decide)⟩

/-! ## Claim C6: numeric attributes after `Mutate` -/

/-- `v` lies in the configured interval. -/
def InRange (lo hi v : ℚ) : Prop := lo ≤ v ∧ v ≤ hi

theorem clamp_mem {lo hi : ℚ} (h : lo ≤ hi) (v : ℚ) :
    InRange lo hi (clamp v lo hi) := by
  unfold clamp InRange
  constructor
  · exact le_max_left _ _
  · exact max_le h (min_le_right _ _)

theorem initFloatAttribute_mem {lo hi : ℚ} (h : lo ≤ hi)
    (m s : ℚ) (t : String) (rng : Rng) :
    InRange lo hi (initFloatAttribute m s t lo hi rng).1 := by
  unfold initFloatAttribute
  exact clamp_mem h _

theorem mutateFloatAttribute_mem {lo hi : ℚ} (h : lo ≤ hi)
    {v : ℚ} (hv : InRange lo hi v) (mr rr mp im is : ℚ) (t : String)
    (rng : Rng) :
    InRange lo hi (mutateFloatAttribute v mr rr mp im is t lo hi rng).1 := by
  unfold mutateFloatAttribute
  by_cases h1 : (rng.nextFloat).1 < mr
  · simp only [h1, if_pos]
    exact clamp_mem h _
  · by_cases h2 : (rng.nextFloat).1 < mr + rr
    · simp only [h1, h2, if_pos, if_neg, not_false_iff]
      exact initFloatAttribute_mem h _ _ _ _
    · simp only [h1, h2, if_neg, not_false_iff]
      exact hv

/-- Ordered bounds for the three real attributes, and `1.0` inside the
weight range (the add-node split writes a raw `1.0`). -/
def ConfigRangesOk (cfg : GenomeConfig) : Prop :=
  cfg.biasMinValue ≤ cfg.biasMaxValue ∧
    cfg.responseMinValue ≤ cfg.responseMaxValue ∧
    cfg.weightMinValue ≤ 1 ∧ 1 ≤ cfg.weightMaxValue

/-- Every node's bias and response and every connection's weight lies
within its configured `[min, max]`. -/
def GenomeNumericInRange (cfg : GenomeConfig) (g : Genome) : Prop :=
  (∀ p ∈ g.nodes,
    InRange cfg.biasMinValue cfg.biasMaxValue
        (p : ℤ × NodeGene).2.bias ∧
      InRange cfg.responseMinValue cfg.responseMaxValue p.2.response) ∧
    (∀ p ∈ g.connections,
      InRange cfg.weightMinValue cfg.weightMaxValue
        (p : ConnectionKey × ConnectionGene).2.weight)

/-- Configuration whose weight range cannot contain the raw `1.0`
written by the add-node split. -/
def cfgWeightCap : GenomeConfig :=
  { baseConfig with nodeAddProb := 1, weightMaxValue := 1/2, weightMinValue := -1/2 }

/-- One node, one connection of weight `1/4` (inside the range). -/
def genomeWeightCap : Genome :=
  ⟨3, [(0, ⟨0, 0, 1, "identity", "sum"⟩)],
    [(⟨-1, 0⟩, ⟨⟨-1, 0⟩, 1/4, true⟩)], 0⟩

/-- Claim C6 (counterexample): with `weight_max_value = 0.5` the add-node
split (always firing here) creates connection `(-1, 1)` with weight
`1.0`, and the attribute pass (mutate/replace rates `0`) leaves it; after
`Mutate` a connection weight exceeds its configured maximum. -/
theorem mutate_add_node_weight_exceeds_max :
    alookup (⟨-1, 1⟩ : ConnectionKey)
        (GenomeMutate cfgWeightCap genomeWeightCap ⟨[], []⟩).1.connections =
      some ⟨⟨-1, 1⟩, 1, true⟩ ∧
      ¬ ((1 : ℚ) ≤ cfgWeightCap.weightMaxValue) := by
  have h1 : ∀ rng : Rng,
      initStringAttribute "identity" ["identity"] rng =
        ("identity", rng) := fun _ => rfl
  have h2 : ∀ rng : Rng,
      initStringAttribute "sum" ["sum"] rng = ("sum", rng) := fun _ => rfl
  have h3 : ∀ rng : Rng, initBoolAttribute "true" rng = (true, rng) :=
    fun _ => rfl
  have h4 : ∀ (m s lo hi : ℚ) (rng : Rng),
      initFloatAttribute m s "gaussian" lo hi rng =
        (clamp ((rng.nextFloat).1 * s + m) lo hi, (rng.nextFloat).2) :=
    fun _ _ _ _ _ => rfl
  constructor
  · norm_num [GenomeMutate, mutateAddNode, Rng.nextFloat, Rng.nextIntn,
      GetNewNodeKey, NewNodeGene, NewConnectionGene, h1, h2, h3, h4,
      clamp, NodeGeneMutate, mutateFloatAttribute, mutateStringAttribute,
      ConnectionGeneMutateIn, mutateBoolAttribute, alookup, aupdate,
      ainsert, cfgWeightCap, genomeWeightCap, baseConfig]
  · norm_num [cfgWeightCap, baseConfig]

theorem NewNodeGene_mem (cfg : GenomeConfig)
    (hb : cfg.biasMinValue ≤ cfg.biasMaxValue)
    (hr : cfg.responseMinValue ≤ cfg.responseMaxValue)
    (key : ℤ) (rng : Rng) :
    InRange cfg.biasMinValue cfg.biasMaxValue
        (NewNodeGene key cfg rng).1.bias ∧
      InRange cfg.responseMinValue cfg.responseMaxValue
        (NewNodeGene key cfg rng).1.response := by
  exact ⟨initFloatAttribute_mem hb _ _ _ _, initFloatAttribute_mem hr _ _ _ _⟩

theorem NewConnectionGene_mem (cfg : GenomeConfig)
    (hw : cfg.weightMinValue ≤ cfg.weightMaxValue)
    (key : ConnectionKey) (rng : Rng) :
    InRange cfg.weightMinValue cfg.weightMaxValue
      (NewConnectionGene key cfg rng).1.weight := by
  exact initFloatAttribute_mem hw _ _ _ _

theorem NodeGeneMutate_mem (cfg : GenomeConfig)
    (hb : cfg.biasMinValue ≤ cfg.biasMaxValue)
    (hr : cfg.responseMinValue ≤ cfg.responseMaxValue)
    (ng : NodeGene)
    (hng : InRange cfg.biasMinValue cfg.biasMaxValue ng.bias ∧
      InRange cfg.responseMinValue cfg.responseMaxValue ng.response)
    (rng : Rng) :
    InRange cfg.biasMinValue cfg.biasMaxValue
        (NodeGeneMutate cfg ng rng).1.bias ∧
      InRange cfg.responseMinValue cfg.responseMaxValue
        (NodeGeneMutate cfg ng rng).1.response := by
  exact ⟨mutateFloatAttribute_mem hb hng.1 _ _ _ _ _ _ _,
    mutateFloatAttribute_mem hr hng.2 _ _ _ _ _ _ _⟩

theorem mutateAddNode_cfg_cases (cfg : GenomeConfig) (g : Genome)
    (rng : Rng) :
    (mutateAddNode cfg g rng).2.1 = cfg ∨
      (mutateAddNode cfg g rng).2.1 =
        { cfg with nodeKeyIndex := cfg.nodeKeyIndex + 1 } := by
  unfold mutateAddNode
  by_cases hl : g.connections.length = 0
  · rw [if_pos hl]
    exact Or.inl rfl
  · rw [if_neg hl]
    exact Or.inr rfl

theorem mutateAddNode_preserves (cfg : GenomeConfig) (g : Genome)
    (rng : Rng) (hcfg : ConfigRangesOk cfg)
    (hg : GenomeNumericInRange cfg g) :
    GenomeNumericInRange cfg (mutateAddNode cfg g rng).1 := by
  obtain ⟨hb, hr, hw1, hw2⟩ := hcfg
  unfold mutateAddNode
  by_cases hl : g.connections.length = 0
  · rw [if_pos hl]
    exact hg
  · rw [if_neg hl]
    refine ⟨?_, ?_⟩
    · intro p hp
      rcases mem_ainsert hp with h | h
      · exact hg.1 p h
      · subst h
        exact NewNodeGene_mem _ hb hr _ _
    · intro p hp
      have hpos : 0 < (g.connections.map Prod.fst).length := by
        rw [List.length_map]
        exact Nat.pos_of_ne_zero hl
      have hi :
          (Rng.nextIntn (g.connections.map Prod.fst).length rng).1 <
            (g.connections.map Prod.fst).length := nextIntn_lt hpos rng
      have hk0 :
          (g.connections.map Prod.fst).getD
              (Rng.nextIntn (g.connections.map Prod.fst).length rng).1
              ⟨0, 0⟩ ∈ g.connections.map Prod.fst :=
        getD_mem_of_lt _ _ _ hi
      obtain ⟨c, hc⟩ := Option.isSome_iff_exists.mp
        (alookup_isSome.mpr hk0)
      rcases mem_ainsert hp with h | h
      · rcases mem_ainsert h with h2 | h2
        · have h2' : p ∈ aupdate
              ((g.connections.map Prod.fst).getD
                (Rng.nextIntn (g.connections.map Prod.fst).length rng).1
                ⟨0, 0⟩)
              (fun c => { c with enabled := false }) g.connections := h2
          rcases mem_aupdate h2' with h3 | ⟨v, hv, he⟩
          · exact hg.2 p h3
          · subst he
            exact hg.2 (_, v) hv
        · subst h2
          exact ⟨hw1, hw2⟩
      · subst h
        rw [hc]
        simp only [Option.getD_some]
        exact hg.2 _ (mem_alookup hc)


theorem connMutateIn_conns (cfg : GenomeConfig) (g : Genome)
    (k : ConnectionKey) (rng : Rng) :
    (ConnectionGeneMutateIn cfg g k rng).1.nodes = g.nodes ∧
      ((ConnectionGeneMutateIn cfg g k rng).1.connections =
          g.connections ∨
        ∃ (cg : ConnectionGene) (f₁ f₂ : ConnectionGene → ConnectionGene),
          (ConnectionGeneMutateIn cfg g k rng).1.connections =
              aupdate k f₂ (aupdate k f₁ g.connections) ∧
            alookup k g.connections = some cg ∧
            (∀ c, (f₁ c).weight =
              (mutateFloatAttribute cg.weight cfg.weightMutateRate
                cfg.weightReplaceRate cfg.weightMutatePower
                cfg.weightInitMean cfg.weightInitStdev cfg.weightInitType
                cfg.weightMinValue cfg.weightMaxValue rng).1) ∧
            (∀ c, (f₂ c).weight = c.weight)) := by
  unfold ConnectionGeneMutateIn
  cases hlk : alookup k g.connections with
  | none => exact ⟨rfl, Or.inl rfl⟩
  | some cg =>
    refine ⟨rfl, Or.inr ⟨cg,
      fun c => ConnectionGene.mk c.key
        (mutateFloatAttribute cg.weight cfg.weightMutateRate
          cfg.weightReplaceRate cfg.weightMutatePower cfg.weightInitMean
          cfg.weightInitStdev cfg.weightInitType cfg.weightMinValue
          cfg.weightMaxValue rng).1 c.enabled,
      fun c => ConnectionGene.mk c.key c.weight
        (mutateBoolAttribute cg.enabled cfg.enabledMutateRate
          cfg.enabledRateToTrueAdd cfg.enabledRateToFalseAdd
          cfg.feedForward
          (Genome.mk g.key g.nodes
            (aupdate k
              (fun c2 => ConnectionGene.mk c2.key
                (mutateFloatAttribute cg.weight cfg.weightMutateRate
                  cfg.weightReplaceRate cfg.weightMutatePower
                  cfg.weightInitMean cfg.weightInitStdev
                  cfg.weightInitType cfg.weightMinValue
                  cfg.weightMaxValue rng).1 c2.enabled)
              g.connections)
            g.fitness)
          k
          (mutateFloatAttribute cg.weight cfg.weightMutateRate
            cfg.weightReplaceRate cfg.weightMutatePower cfg.weightInitMean
            cfg.weightInitStdev cfg.weightInitType cfg.weightMinValue
            cfg.weightMaxValue rng).2).1,
      rfl, rfl, fun c => rfl, fun c => rfl⟩⟩

theorem connMutateIn_preserves (cfg : GenomeConfig) (g : Genome)
    (k : ConnectionKey) (rng : Rng)
    (hw : cfg.weightMinValue ≤ cfg.weightMaxValue)
    (hg : GenomeNumericInRange cfg g) :
    GenomeNumericInRange cfg (ConnectionGeneMutateIn cfg g k rng).1 := by
  obtain ⟨hn, hc⟩ := connMutateIn_conns cfg g k rng
  unfold GenomeNumericInRange
  refine ⟨?_, ?_⟩
  · rw [hn]
    exact hg.1
  · rcases hc with hc | ⟨cg, f₁, f₂, hc, hlk, hf₁, hf₂⟩
    · rw [hc]
      exact hg.2
    · rw [hc]
      have hcw : InRange cfg.weightMinValue cfg.weightMaxValue cg.weight :=
        hg.2 (k, cg) (mem_alookup hlk)
      intro p hp
      rcases mem_aupdate hp with h1 | ⟨v, hv, he⟩
      · rcases mem_aupdate h1 with h2 | ⟨w, hw2, he2⟩
        · exact hg.2 p h2
        · subst he2
          show InRange cfg.weightMinValue cfg.weightMaxValue (f₁ w).weight
          rw [hf₁ w]
          exact mutateFloatAttribute_mem hw hcw _ _ _ _ _ _ _
      · subst he
        show InRange cfg.weightMinValue cfg.weightMaxValue (f₂ v).weight
        rw [hf₂ v]
        rcases mem_aupdate hv with h2 | ⟨w, hw2, he2⟩
        · exact hg.2 (k, v) h2
        · rw [congrArg
            (fun q => (q : ConnectionKey × ConnectionGene).2.weight) he2]
          rw [hf₁ w]
          exact mutateFloatAttribute_mem hw hcw _ _ _ _ _ _ _

theorem addConnAttempts_preserves (cfg : GenomeConfig) (g : Genome)
    (pin pout : List ℤ)
    (hw : cfg.weightMinValue ≤ cfg.weightMaxValue)
    (hg : GenomeNumericInRange cfg g) :
    ∀ (n : ℕ) (rng : Rng),
      GenomeNumericInRange cfg (addConnAttempts cfg g pin pout n rng).1 := by
  intro n
  induction n with
  | zero => intro rng; exact hg
  | succ n ih =>
    intro rng
    simp only [addConnAttempts]
    split
    · exact ih _
    · split
      · exact ih _
      · split
        · exact ih _
        · refine ⟨hg.1, ?_⟩
          intro p hp
          rcases mem_ainsert hp with h | h
          · exact hg.2 p h
          · subst h
            exact NewConnectionGene_mem cfg hw _ _

theorem mutateAddConnection_preserves (cfg : GenomeConfig) (g : Genome)
    (rng : Rng) (hw : cfg.weightMinValue ≤ cfg.weightMaxValue)
    (hg : GenomeNumericInRange cfg g) :
    GenomeNumericInRange cfg (mutateAddConnection cfg g rng).1 := by
  simp only [mutateAddConnection]
  split
  · exact hg
  · exact addConnAttempts_preserves cfg g _ _ hw hg _ _

theorem nodeFold_preserves (cfg : GenomeConfig)
    (hb : cfg.biasMinValue ≤ cfg.biasMaxValue)
    (hr : cfg.responseMinValue ≤ cfg.responseMaxValue) :
    ∀ (l : List (ℤ × NodeGene)) (init : List (ℤ × NodeGene) × Rng),
      (∀ p ∈ init.1,
        InRange cfg.biasMinValue cfg.biasMaxValue
            (p : ℤ × NodeGene).2.bias ∧
          InRange cfg.responseMinValue cfg.responseMaxValue
            p.2.response) →
      (∀ p ∈ l,
        InRange cfg.biasMinValue cfg.biasMaxValue
            (p : ℤ × NodeGene).2.bias ∧
          InRange cfg.responseMinValue cfg.responseMaxValue
            p.2.response) →
      ∀ p ∈ (l.foldl
          (fun (st : List (ℤ × NodeGene) × Rng) p =>
            let sn := NodeGeneMutate cfg p.2 st.2
            (st.1 ++ [(p.1, sn.1)], sn.2)) init).1,
        InRange cfg.biasMinValue cfg.biasMaxValue
            (p : ℤ × NodeGene).2.bias ∧
          InRange cfg.responseMinValue cfg.responseMaxValue
            p.2.response := by
  intro l
  induction l with
  | nil => intro init hinit _ p hp; exact hinit p hp
  | cons q l ih =>
    intro init hinit hl p hp
    rw [List.foldl_cons] at hp
    refine ih _ ?_ (fun r hr' => hl r (List.mem_cons_of_mem _ hr')) p hp
    intro r hrm
    rcases List.mem_append.mp hrm with h | h
    · exact hinit r h
    · rw [List.mem_singleton] at h
      subst h
      exact NodeGeneMutate_mem cfg hb hr q.2
        (hl q (List.mem_cons_self _ _)) init.2

theorem connFold_preserves (cfg : GenomeConfig)
    (hw : cfg.weightMinValue ≤ cfg.weightMaxValue) :
    ∀ (ks : List ConnectionKey) (init : Genome × Rng),
      GenomeNumericInRange cfg init.1 →
      GenomeNumericInRange cfg
        ((ks.foldl
          (fun (st : Genome × Rng) k =>
            ConnectionGeneMutateIn cfg st.1 k st.2) init).1) := by
  intro ks
  induction ks with
  | nil => intro init h; exact h
  | cons k ks ih =>
    intro init h
    rw [List.foldl_cons]
    exact ih _ (connMutateIn_preserves cfg init.1 k init.2 hw h)

theorem attrPass_preserves (cfg : GenomeConfig) (G : Genome) (r : Rng)
    (hb : cfg.biasMinValue ≤ cfg.biasMaxValue)
    (hrp : cfg.responseMinValue ≤ cfg.responseMaxValue)
    (hw : cfg.weightMinValue ≤ cfg.weightMaxValue)
    (hG : GenomeNumericInRange cfg G) :
    GenomeNumericInRange cfg
      ((((Genome.mk G.key
            (G.nodes.foldl (fun (st : List (ℤ × NodeGene) × Rng) p =>
              let sn := NodeGeneMutate cfg p.2 st.2
              (st.1 ++ [(p.1, sn.1)], sn.2)) ([], r)).1
            G.connections G.fitness).connections.map Prod.fst).foldl
        (fun (st : Genome × Rng) k => ConnectionGeneMutateIn cfg st.1 k st.2)
        (Genome.mk G.key
            (G.nodes.foldl (fun (st : List (ℤ × NodeGene) × Rng) p =>
              let sn := NodeGeneMutate cfg p.2 st.2
              (st.1 ++ [(p.1, sn.1)], sn.2)) ([], r)).1
            G.connections G.fitness,
          (G.nodes.foldl (fun (st : List (ℤ × NodeGene) × Rng) p =>
            let sn := NodeGeneMutate cfg p.2 st.2
            (st.1 ++ [(p.1, sn.1)], sn.2)) ([], r)).2))).1 := by
  refine connFold_preserves cfg hw _ _ ⟨?_, ?_⟩
  · exact nodeFold_preserves cfg hb hrp G.nodes ([], r)
      (fun p hp => absurd hp (List.not_mem_nil p)) hG.1
  · exact hG.2

set_option maxHeartbeats 1600000 in
/-- Claim C6: after `Mutate`, every connection weight lies in
`[weight_min_value, weight_max_value]` and every node bias and response
in its own `[min, max]` — PROVIDED each range is ordered and the weight
range contains `1.0`, because the add-node split writes the raw constant
`1.0` (unclamped) into the first new connection; all other writes go
through the clamping attribute kernels. -/
theorem genome_mutate_preserves_ranges (cfg : GenomeConfig) (g : Genome)
    (rng : Rng) (hcfg : ConfigRangesOk cfg)
    (hg : GenomeNumericInRange cfg g) :
    GenomeNumericInRange cfg (GenomeMutate cfg g rng).1 := by
  obtain ⟨hb, hr, hw1, hw2⟩ := hcfg
  have hw : cfg.weightMinValue ≤ cfg.weightMaxValue := le_trans hw1 hw2
  simp only [GenomeMutate]
  repeat' split
  all_goals dsimp only
  all_goals
    first
    | exact attrPass_preserves cfg _ _ hb hr hw hg
    | exact attrPass_preserves cfg _ _ hb hr hw
        (mutateAddConnection_preserves cfg _ _ hw hg)
    | (rcases mutateAddNode_cfg_cases cfg g ((rng.nextFloat).2) with
        hc | hc <;>
      rw [hc] <;>
      first
      | exact attrPass_preserves cfg _ _ hb hr hw
          (mutateAddNode_preserves cfg g _ ⟨hb, hr, hw1, hw2⟩ hg)
      | exact attrPass_preserves { cfg with nodeKeyIndex := cfg.nodeKeyIndex + 1 } _ _ hb hr hw
          (mutateAddNode_preserves cfg g _ ⟨hb, hr, hw1, hw2⟩ hg)
      | exact attrPass_preserves cfg _ _ hb hr hw
          (mutateAddConnection_preserves cfg _ _ hw
            (mutateAddNode_preserves cfg g _ ⟨hb, hr, hw1, hw2⟩ hg))
      | exact attrPass_preserves { cfg with nodeKeyIndex := cfg.nodeKeyIndex + 1 } _ _ hb hr hw
          (mutateAddConnection_preserves { cfg with nodeKeyIndex := cfg.nodeKeyIndex + 1 } _ _ hw
            (mutateAddNode_preserves cfg g _ ⟨hb, hr, hw1, hw2⟩ hg)))

theorem genome_mutate_preserves_ranges_witness :
    ConfigRangesOk baseConfig ∧
      GenomeNumericInRange baseConfig genomeOneConn ∧
      GenomeNumericInRange baseConfig
        (GenomeMutate baseConfig genomeOneConn ⟨[], []⟩).1 := by
  have h1 : ConfigRangesOk baseConfig := by
    norm_num [ConfigRangesOk, baseConfig]
  have h2 : GenomeNumericInRange baseConfig genomeOneConn := by
    norm_num [GenomeNumericInRange, InRange, genomeOneConn, baseConfig]
  exact ⟨h1, h2, genome_mutate_preserves_ranges _ _ _ h1 h2⟩

/-- A zero-connection genome whose output node carries the aggregation
name `maxabs` (which `AggregationFunctions` does not register). -/
def genomeMaxAbs : Genome :=
  ⟨0, [(0, ⟨0, 0, 1, "identity", "maxabs"⟩)], [], 0⟩

/-- Claim C7 (counterexample): a feed-forward genome with an empty
connection map whose output node names the unregistered aggregation
`maxabs`; building the phenotype does NOT succeed — the builder returns
the `GetAggregation` lookup error. -/
theorem create_network_fails_on_maxabs_aggregation :
    CreateFeedForwardNetwork baseConfig genomeMaxAbs =
      .error "unknown aggregation function: maxabs" := by
  rfl

/-- The total per-key node value produced by the builder when all
lookups succeed (the error branches resolved by the success
hypotheses). -/
def buildNodeF (g : Genome) (key : ℤ) : NeuralNode :=
  match alookup key g.nodes with
  | some gn =>
    ⟨key, gn.bias, gn.response,
      (match GetActivation gn.activation with
       | .ok a => a
       | .error _ => ActTag.identity),
      (match GetAggregation gn.aggregation with
       | .ok t => t
       | .error _ => AggTag.sum), []⟩
  | none => ⟨key, 0, 1, ActTag.identity, AggTag.sum, []⟩

theorem mapME_build_ok (cfg : GenomeConfig) (g : Genome)
    (hA : ∀ p ∈ g.nodes,
      ∃ a, GetActivation (p : ℤ × NodeGene).2.activation = Except.ok a)
    (hT : ∀ p ∈ g.nodes,
      ∃ t, GetAggregation (p : ℤ × NodeGene).2.aggregation = Except.ok t) :
    ∀ keys : List ℤ,
      mapME (ffBuildNode cfg g ActTag.identity AggTag.sum) keys =
        Except.ok (keys.map (buildNodeF g)) := by
  intro keys
  induction keys with
  | nil => rfl
  | cons k ks ih =>
    have hk : ffBuildNode cfg g ActTag.identity AggTag.sum k =
        Except.ok (buildNodeF g k) := by
      unfold ffBuildNode buildNodeF
      cases hlk : alookup k g.nodes with
      | none =>
        by_cases hin : k ∈ cfg.inputKeys
        · rw [if_pos hin]
        · rw [if_neg hin]
      | some gn =>
        dsimp only
        obtain ⟨a, ha⟩ := hA (k, gn) (mem_alookup hlk)
        obtain ⟨t, ht⟩ := hT (k, gn) (mem_alookup hlk)
        have ha' : GetActivation gn.activation = Except.ok a := ha
        have ht' : GetAggregation gn.aggregation = Except.ok t := ht
        rw [ha', ht']
    simp only [mapME, hk, ih, List.map_cons]

theorem buildNodeF_inputs (g : Genome) (key : ℤ) :
    (buildNodeF g key).inputs = [] := by
  unfold buildNodeF
  cases alookup key g.nodes <;> rfl

theorem map_buildNodeF_getD_inputs (g : Genome) :
    ∀ (keys : List ℤ) (t : ℕ),
      ((keys.map (buildNodeF g)).getD t default).inputs = [] := by
  intro keys
  induction keys with
  | nil => intro t; rfl
  | cons k ks ih =>
    intro t
    cases t with
    | zero => exact buildNodeF_inputs g k
    | succ t => exact ih t

theorem getD_replicate {α : Type} (a : α) :
    ∀ (n i : ℕ), (List.replicate n a).getD i a = a := by
  intro n
  induction n with
  | zero => intro i; rfl
  | succ n ih =>
    intro i
    cases i with
    | zero => rfl
    | succ i => exact ih i

theorem kahn_no_edges (n : ℕ) :
    ∀ q : List ℕ, List.Sorted (fun a b => a ≤ b) q →
      ∀ fuel : ℕ, q.length < fuel → ∀ ind order : List ℕ,
        kahnLoop (List.replicate n []) fuel ind q order = order ++ q := by
  intro q
  induction q with
  | nil =>
    intro _ fuel hf ind order
    cases fuel with
    | zero => omega
    | succ f => simp [kahnLoop]
  | cons u rest ih =>
    intro hs fuel hf ind order
    cases fuel with
    | zero => omega
    | succ f =>
      have hrest : List.Sorted (fun a b => a ≤ b) rest :=
        (List.sorted_cons.mp hs).2
      have hnil : List.insertionSort (fun a b : ℕ => a ≤ b) [] = [] := rfl
      simp only [kahnLoop, getD_replicate, hnil, List.foldl_nil]
      rw [List.Sorted.insertionSort_eq hrest,
        ih hrest f (by simpa using Nat.lt_of_succ_lt_succ hf) ind
          (order ++ [u])]
      simp

theorem getD_set_self :
    ∀ (l : List ℚ) (i : ℕ), i < l.length → ∀ x : ℚ,
      (l.set i x).getD i 0 = x := by
  intro l
  induction l with
  | nil => intro i hi; simp at hi
  | cons y l ih =>
    intro i hi x
    cases i with
    | zero => rfl
    | succ i => exact ih i (by simpa using hi) x

theorem getD_set_ne :
    ∀ (l : List ℚ) (i j : ℕ), ¬ i = j → ∀ x : ℚ,
      (l.set i x).getD j 0 = l.getD j 0 := by
  intro l
  induction l with
  | nil => intro i j _ x; cases i <;> rfl
  | cons y l ih =>
    intro i j hij x
    cases i with
    | zero =>
      cases j with
      | zero => exact absurd rfl hij
      | succ j => rfl
    | succ i =>
      cases j with
      | zero => rfl
      | succ j => exact ih i j (fun h => hij (congrArg Nat.succ h)) x

theorem length_foldl_set (w : ℕ → ℚ) :
    ∀ (l : List ℕ) (nv : List ℚ),
      (l.foldl (fun nv i => nv.set i (w i)) nv).length = nv.length := by
  intro l
  induction l with
  | nil => intro nv; rfl
  | cons i l ih =>
    intro nv
    rw [List.foldl_cons, ih, List.length_set]

theorem foldl_set_getD_notmem (w : ℕ → ℚ) :
    ∀ (l : List ℕ) (nv : List ℚ) (o : ℕ), ¬ o ∈ l →
      (l.foldl (fun nv i => nv.set i (w i)) nv).getD o 0 = nv.getD o 0 := by
  intro l
  induction l with
  | nil => intro nv o _; rfl
  | cons i l ih =>
    intro nv o ho
    rw [List.foldl_cons,
      ih _ o (fun h => ho (List.mem_cons_of_mem _ h)),
      getD_set_ne _ i o (fun h => ho (h ▸ List.mem_cons_self _ _))]

theorem foldl_set_getD (w : ℕ → ℚ) :
    ∀ (l : List ℕ) (nv : List ℚ) (o : ℕ),
      o ∈ l → l.Nodup → o < nv.length →
      (l.foldl (fun nv i => nv.set i (w i)) nv).getD o 0 = w o := by
  intro l
  induction l with
  | nil => intro nv o ho; cases ho
  | cons i l ih =>
    intro nv o ho hnd hlen
    rw [List.foldl_cons]
    rcases List.mem_cons.mp ho with rfl | ho'
    · rw [foldl_set_getD_notmem w l _ o (List.nodup_cons.mp hnd).1,
        getD_set_self _ o hlen]
    · exact ih (nv.set i (w i)) o ho' (List.nodup_cons.mp hnd).2
        (by rw [List.length_set]; exact hlen)

theorem length_foldl_set_pairs :
    ∀ (ps : List (ℕ × ℚ)) (nv : List ℚ),
      (ps.foldl (fun nv p =>
        nv.set (p : ℕ × ℚ).1 p.2) nv).length = nv.length := by
  intro ps
  induction ps with
  | nil => intro nv; rfl
  | cons p ps ih =>
    intro nv
    rw [List.foldl_cons, ih, List.length_set]

theorem getD_map_buildNodeF (g : Genome) :
    ∀ (keys : List ℤ) (o : ℕ) (h : o < keys.length),
      (keys.map (buildNodeF g)).getD o default =
        buildNodeF g (keys.get ⟨o, h⟩) := by
  intro keys
  induction keys with
  | nil => intro o h; simp at h
  | cons k ks ih =>
    intro o h
    cases o with
    | zero => rfl
    | succ o => exact ih o (by simpa using h)

/-- The sorted, deduplicated key list the builder assigns indices over,
for a genome with no connections. -/
def ffKeys (cfg : GenomeConfig) (g : Genome) : List ℤ :=
  List.insertionSort (fun a b => a ≤ b)
    ((cfg.inputKeys ++ cfg.outputKeys ++ g.nodes.map Prod.fst).dedup)

theorem ig_fold_no_inputs (g : Genome) (keys : List ℤ) (n m : ℕ) :
    (List.range m).foldl
      (fun (st : List ℕ × List (List ℕ)) t =>
        ((keys.map (buildNodeF g)).getD t default).inputs.foldl
          (fun (st : List ℕ × List (List ℕ)) ic =>
            (lmodify st.1 t (fun d => d + 1),
             lmodify st.2 ic.inputNodeIndex (fun l => l ++ [t])))
          st)
      (List.replicate n 0, List.replicate n []) =
    (List.replicate n 0, List.replicate n []) := by
  refine Eq.trans (List.foldl_ext _ (fun st _ => st) _ ?_)
    (List.foldl_fixed _)
  intro st t _
  rw [map_buildNodeF_getD_inputs]
  rfl

theorem queue_filter (n : ℕ) :
    (List.range n).filter
      (fun i => (List.replicate n (0 : ℕ)).getD i 0 = 0) = List.range n := by
  refine List.filter_eq_self.mpr ?_
  intro i _
  rw [getD_replicate]
  decide

theorem sort_range (n : ℕ) :
    List.insertionSort (fun a b => a ≤ b) (List.range n) = List.range n :=
  (List.sorted_le_range n).insertionSort_eq

theorem kahn_range (n : ℕ) (ind : List ℕ) :
    kahnLoop (List.replicate n []) (n + 1) ind (List.range n) [] =
      List.range n := by
  rw [kahn_no_edges n (List.range n) (List.sorted_le_range n) (n + 1)
    (by rw [List.length_range]; exact Nat.lt_succ_self n) ind []]
  rfl

theorem ite_len_range (n : ℕ) (a b : Except String FeedForwardNetwork) :
    (if ¬ (List.range n).length = n then a else b) = b := by
  rw [if_neg]
  simp [List.length_range]

theorem create_network_view (cfg : GenomeConfig) (g : Genome)
    (hff : cfg.feedForward = true) (hconn : g.connections = [])
    (hA : ∀ p ∈ g.nodes,
      ∃ a, GetActivation (p : ℤ × NodeGene).2.activation = Except.ok a)
    (hT : ∀ p ∈ g.nodes,
      ∃ t, GetAggregation (p : ℤ × NodeGene).2.aggregation = Except.ok t) :
    CreateFeedForwardNetwork cfg g = Except.ok
      ⟨cfg.inputKeys.map (fun k => (ffKeys cfg g).indexOf k),
       cfg.outputKeys.map (fun k => (ffKeys cfg g).indexOf k),
       (List.range (ffKeys cfg g).length).filter
         (fun i => ¬ i ∈ cfg.inputKeys.map (fun k => (ffKeys cfg g).indexOf k)),
       (ffKeys cfg g).map (buildNodeF g),
       (ffKeys cfg g).length⟩ := by
  have e1 : GetActivation "identity" = Except.ok ActTag.identity := rfl
  have e2 : GetAggregation "sum" = Except.ok AggTag.sum := rfl
  unfold CreateFeedForwardNetwork
  rw [hconn, hff]
  rw [if_neg (by decide : ¬ ¬ true = true)]
  simp only [List.filter_nil, List.map_nil, List.append_nil]
  rw [e1]
  dsimp only
  rw [e2]
  dsimp only
  rw [mapME_build_ok cfg g hA hT]
  dsimp only
  simp only [List.foldl_nil]
  simp only [ig_fold_no_inputs, queue_filter, sort_range, kahn_range,
    ite_len_range]
  rfl

theorem eval_fold_getD (actI : ActTag → ℚ → ℚ)
    (aggI : AggTag → List ℚ → ℚ) (g : Genome) (keys : List ℤ)
    (l : List ℕ) (nv : List ℚ) (o : ℕ)
    (ho : o ∈ l) (hnd : l.Nodup) (holen : o < nv.length) :
    (l.foldl (fun nv nodeIndex =>
        nv.set nodeIndex
          (actI ((keys.map (buildNodeF g)).getD nodeIndex
              default).activationFn
            ((aggI ((keys.map (buildNodeF g)).getD nodeIndex
                  default).aggregationFn
                (((keys.map (buildNodeF g)).getD nodeIndex
                    default).inputs.map
                  (fun conn => nv.getD conn.inputNodeIndex 0 * conn.weight)) +
              ((keys.map (buildNodeF g)).getD nodeIndex default).bias) *
            ((keys.map (buildNodeF g)).getD nodeIndex default).response)))
      nv).getD o 0 =
    actI ((keys.map (buildNodeF g)).getD o default).activationFn
      ((aggI ((keys.map (buildNodeF g)).getD o default).aggregationFn [] +
          ((keys.map (buildNodeF g)).getD o default).bias) *
        ((keys.map (buildNodeF g)).getD o default).response) := by
  have hext : ∀ (nv' : List ℚ) (i : ℕ), i ∈ l →
      (fun (nv : List ℚ) (nodeIndex : ℕ) =>
        nv.set nodeIndex
          (actI ((keys.map (buildNodeF g)).getD nodeIndex
              default).activationFn
            ((aggI ((keys.map (buildNodeF g)).getD nodeIndex
                  default).aggregationFn
                (((keys.map (buildNodeF g)).getD nodeIndex
                    default).inputs.map
                  (fun conn => nv.getD conn.inputNodeIndex 0 * conn.weight)) +
              ((keys.map (buildNodeF g)).getD nodeIndex default).bias) *
            ((keys.map (buildNodeF g)).getD nodeIndex default).response)))
        nv' i =
      (fun (nv : List ℚ) (i : ℕ) =>
        nv.set i
          (actI ((keys.map (buildNodeF g)).getD i default).activationFn
            ((aggI ((keys.map (buildNodeF g)).getD i
                  default).aggregationFn [] +
                ((keys.map (buildNodeF g)).getD i default).bias) *
              ((keys.map (buildNodeF g)).getD i default).response)))
        nv' i := by
    intro nv' i _
    dsimp only
    rw [map_buildNodeF_getD_inputs]
    simp only [List.map_nil]
  rw [List.foldl_ext _ _ nv hext]
  exact foldl_set_getD _ l nv o ho hnd holen

theorem ffActivate_general (actI : ActTag → ℚ → ℚ)
    (aggI : AggTag → List ℚ → ℚ) (inputs : List ℚ)
    (inK outK keys : List ℤ) (g : Genome)
    (hnd : keys.Nodup)
    (hin : ∀ k ∈ inK, k ∈ keys)
    (hout : ∀ k ∈ outK, k ∈ keys)
    (hdisj : ∀ k ∈ outK, ¬ k ∈ inK)
    (hagg : ∀ k ∈ outK, aggI (buildNodeF g k).aggregationFn [] = 0)
    (hlen : inputs.length = inK.length) :
    FFActivate actI aggI
      ⟨inK.map (fun k => keys.indexOf k),
       outK.map (fun k => keys.indexOf k),
       (List.range keys.length).filter
         (fun i => ¬ i ∈ inK.map (fun k => keys.indexOf k)),
       keys.map (buildNodeF g),
       keys.length⟩ inputs =
      Except.ok (outK.map (fun k =>
        actI (buildNodeF g k).activationFn
          ((buildNodeF g k).bias * (buildNodeF g k).response))) := by
  unfold FFActivate
  rw [if_neg (show ¬ ¬ inputs.length =
      (inK.map (fun k => keys.indexOf k)).length by
    rw [List.length_map]
    exact not_not_intro hlen)]
  dsimp only
  rw [List.map_map]
  refine congrArg Except.ok (List.map_congr_left ?_)
  intro k hk
  simp only [Function.comp_apply]
  have hkmem : k ∈ keys := hout k hk
  have hon : keys.indexOf k < keys.length :=
    List.indexOf_lt_length.mpr hkmem
  have hnotin : ¬ keys.indexOf k ∈
      inK.map (fun k => keys.indexOf k) := by
    intro hmem
    obtain ⟨ik, hik, hike⟩ := List.mem_map.mp hmem
    have : ik = k :=
      (List.indexOf_inj (hin ik hik) hkmem).mp hike
    exact hdisj k hk (this ▸ hik)
  have homem : keys.indexOf k ∈
      (List.range keys.length).filter
        (fun i => ¬ i ∈ inK.map (fun k => keys.indexOf k)) := by
    refine List.mem_filter.mpr ⟨List.mem_range.mpr hon, ?_⟩
    exact decide_eq_true hnotin
  have hnodup : ((List.range keys.length).filter
      (fun i => ¬ i ∈ inK.map (fun k => keys.indexOf k))).Nodup :=
    List.Nodup.filter _ (List.nodup_range _)
  have holen : keys.indexOf k <
      (((inK.map (fun k => keys.indexOf k)).zip inputs).foldl
        (fun nv p => nv.set (p : ℕ × ℚ).1 p.2)
        (List.replicate keys.length 0)).length := by
    rw [length_foldl_set_pairs, List.length_replicate]
    exact hon
  refine Eq.trans (eval_fold_getD actI aggI g keys _ _ _
    homem hnodup holen) ?_
  rw [getD_map_buildNodeF g keys _ hon, List.indexOf_get,
    hagg k hk, zero_add]

/-- Claim C7 (amended): for a feed-forward genome with an empty connection
map, building the phenotype succeeds PROVIDED every node's activation and
aggregation names are registered (the counterexample shows `maxabs` makes
the build fail), and `Activate` then returns, for each configured output
node, `activation((agg∅ + bias) · response)` where `agg∅` is that node's
aggregation of the empty input list. This equals
`activation(bias · response)` exactly when the output node's aggregation
maps the empty list to `0` — true of `sum`, `product`, `mean` and the
`average` alias (this code's `Mean` returns `0.0` on an empty slice) —
while `min` returns `+Inf`, `max` returns `-Inf` and `median` `NaN` on an
empty slice, so "regardless of which aggregation function" also fails for
those three. The aggregation interpretation `aggI` is only constrained at
the output nodes' own tags. Output keys are assumed disjoint from input
keys, and the input count must match. -/
theorem ff_zero_connections_activate (cfg : GenomeConfig) (g : Genome)
    (actI : ActTag → ℚ → ℚ) (aggI : AggTag → List ℚ → ℚ)
    (inputs : List ℚ)
    (hff : cfg.feedForward = true)
    (hconn : g.connections = [])
    (hA : ∀ p ∈ g.nodes,
      ∃ a, GetActivation (p : ℤ × NodeGene).2.activation = Except.ok a)
    (hT : ∀ p ∈ g.nodes,
      ∃ t, GetAggregation (p : ℤ × NodeGene).2.aggregation = Except.ok t)
    (hagg : ∀ k ∈ cfg.outputKeys,
      aggI (buildNodeF g k).aggregationFn [] = 0)
    (hlen : inputs.length = cfg.inputKeys.length)
    (hdisj : ∀ k ∈ cfg.outputKeys, ¬ k ∈ cfg.inputKeys) :
    ∃ net, CreateFeedForwardNetwork cfg g = Except.ok net ∧
      FFActivate actI aggI net inputs =
        Except.ok (cfg.outputKeys.map (fun k =>
          actI (buildNodeF g k).activationFn
            ((buildNodeF g k).bias * (buildNodeF g k).response))) := by
  have hnd : (ffKeys cfg g).Nodup :=
    (List.perm_insertionSort _ _).nodup_iff.mpr (List.nodup_dedup _)
  have hin : ∀ k ∈ cfg.inputKeys, k ∈ ffKeys cfg g := by
    intro k hk
    exact (List.perm_insertionSort _ _).mem_iff.mpr
      (List.mem_dedup.mpr (List.mem_append.mpr (Or.inl
        (List.mem_append.mpr (Or.inl hk)))))
  have hout : ∀ k ∈ cfg.outputKeys, k ∈ ffKeys cfg g := by
    intro k hk
    exact (List.perm_insertionSort _ _).mem_iff.mpr
      (List.mem_dedup.mpr (List.mem_append.mpr (Or.inl
        (List.mem_append.mpr (Or.inr hk)))))
  exact ⟨_, create_network_view cfg g hff hconn hA hT,
    ffActivate_general actI aggI inputs cfg.inputKeys cfg.outputKeys
      (ffKeys cfg g) g hnd hin hout hdisj hagg hlen⟩

/-- A zero-connection genome whose output node aggregates with `mean`
(whose empty-slice value in this code is `0.0`). -/
def genomeNoConn : Genome :=
  ⟨0, [(0, ⟨0, 1/3, 2, "identity", "mean"⟩)], [], 0⟩

/-- The program's aggregation semantics on the tags `ℚ` can express:
`sum`, `product` and `mean` are interpreted by the functions translated
from `genes.go`/`math_util.go`. `min`, `max` and `median` return
`+Inf`/`-Inf`/`NaN` on an empty slice in Go, which `ℚ` cannot represent,
so they are left at `0` here — the witness genome does not use them and
the theorem does not constrain them. -/
def aggIWitness : AggTag → List ℚ → ℚ
  | AggTag.sum => AggregateSum
  | AggTag.product => AggregateProduct
  | AggTag.mean => AggregateMean
  | AggTag.min => fun _ => 0
  | AggTag.max => fun _ => 0
  | AggTag.median => fun _ => 0

theorem ff_zero_connections_activate_witness :
    ∃ net, CreateFeedForwardNetwork baseConfig genomeNoConn =
        Except.ok net ∧
      FFActivate (fun _ x => x) aggIWitness net [5, 7] =
        Except.ok (baseConfig.outputKeys.map (fun k =>
          (fun (_ : ActTag) (x : ℚ) => x)
            (buildNodeF genomeNoConn k).activationFn
            ((buildNodeF genomeNoConn k).bias *
              (buildNodeF genomeNoConn k).response))) := by
  exact ff_zero_connections_activate baseConfig genomeNoConn
    (fun _ x => x) aggIWitness [5, 7] rfl rfl
    (by
      intro p hp
      rw [List.mem_singleton.mp hp]
      exact ⟨ActTag.identity, rfl⟩)
    (by
      intro p hp
      rw [List.mem_singleton.mp hp]
      exact ⟨AggTag.mean, rfl⟩)
    (by
      intro k hk
      rw [List.mem_singleton.mp hk]
      rfl)
    rfl (by decide)

/-! ## Enabled-subgraph acyclicity (claim about `createsCycle`-guarded
operations) -/

/-- The directed edges of the enabled subgraph of a connection map. -/
def edgesOf (l : List (ConnectionKey × ConnectionGene)) : List (ℤ × ℤ) :=
  (l.filter (fun p => p.2.enabled)).map
    (fun p => (p.1.inNodeID, p.1.outNodeID))

/-- The enabled subgraph of a genome. -/
def enabledEdges (g : Genome) : List (ℤ × ℤ) := edgesOf g.connections

/-- One-step edge relation. -/
def EdgeStep (E : List (ℤ × ℤ)) (a b : ℤ) : Prop := (a, b) ∈ E

/-- Reachability along edges (reflexive-transitive closure). -/
def Reach (E : List (ℤ × ℤ)) : ℤ → ℤ → Prop :=
  Relation.ReflTransGen (EdgeStep E)

/-- Acyclicity: no edge closes a cycle (equivalently, no nontrivial
cycle exists). -/
def AcyclicE (E : List (ℤ × ℤ)) : Prop :=
  ∀ e ∈ E, ¬ Reach E (e : ℤ × ℤ).2 e.1

/-- The claim's invariant: the enabled subgraph is acyclic. -/
def EnabledAcyclic (g : Genome) : Prop := AcyclicE (enabledEdges g)

theorem reach_mono {E F : List (ℤ × ℤ)} (h : ∀ p : ℤ × ℤ, p ∈ E → p ∈ F)
    {x y : ℤ} (hr : Reach E x y) : Reach F x y :=
  Relation.ReflTransGen.mono (fun a b hab => h (a, b) hab) hr

theorem acyclic_of_subset {E F : List (ℤ × ℤ)}
    (h : ∀ p : ℤ × ℤ, p ∈ E → p ∈ F) (hF : AcyclicE F) : AcyclicE E :=
  fun e he hr => hF e (h e he) (reach_mono h hr)

theorem reach_insert_decompose {E F : List (ℤ × ℤ)} {a b : ℤ}
    (hF : ∀ p : ℤ × ℤ, p ∈ F → p ∈ E ∨ p = (a, b)) {x y : ℤ}
    (hr : Reach F x y) :
    Reach E x y ∨ (Reach E x a ∧ Reach E b y) := by
  induction hr with
  | refl => exact Or.inl Relation.ReflTransGen.refl
  | tail hxz hzy ih =>
    rcases hF _ hzy with hE | hab
    · rcases ih with h1 | ⟨h1, h2⟩
      · exact Or.inl (Relation.ReflTransGen.tail h1 hE)
      · exact Or.inr ⟨h1, Relation.ReflTransGen.tail h2 hE⟩
    · have hb1 : (_ : ℤ) = a := congrArg Prod.fst hab
      have hb2 : (_ : ℤ) = b := congrArg Prod.snd hab
      rcases ih with h1 | ⟨h1, h2⟩
      · exact Or.inr ⟨hb1 ▸ h1, hb2 ▸ Relation.ReflTransGen.refl⟩
      · exact Or.inr ⟨h1, hb2 ▸ Relation.ReflTransGen.refl⟩
  done

theorem acyclic_insert {E F : List (ℤ × ℤ)} {a b : ℤ}
    (hEF : ∀ p : ℤ × ℤ, p ∈ E → p ∈ F)
    (hFE : ∀ p : ℤ × ℤ, p ∈ F → p ∈ E ∨ p = (a, b))
    (hE : AcyclicE E) (hna : ¬ Reach E b a) (hne : ¬ a = b) :
    AcyclicE F := by
  intro e he hr
  rcases hFE e he with heE | heab
  · rcases reach_insert_decompose hFE hr with h1 | ⟨h1, h2⟩
    · exact hE e heE h1
    · exact hna (Relation.ReflTransGen.trans h2
        (Relation.ReflTransGen.trans
          (Relation.ReflTransGen.single (show EdgeStep E e.1 e.2 from heE))
          h1))
  · have ha : e.1 = a := congrArg Prod.fst heab
    have hb : e.2 = b := congrArg Prod.snd heab
    rw [ha, hb] at hr
    rcases reach_insert_decompose hFE hr with h1 | ⟨h1, _⟩
    · exact hna h1
    · exact hna h1

theorem mem_edgesOf_iff {l : List (ConnectionKey × ConnectionGene)}
    {e : ℤ × ℤ} :
    e ∈ edgesOf l ↔ ∃ q ∈ l,
      (q : ConnectionKey × ConnectionGene).2.enabled = true ∧
        e = (q.1.inNodeID, q.1.outNodeID) := by
  unfold edgesOf
  constructor
  · intro h
    obtain ⟨q, hq, he⟩ := List.mem_map.mp h
    obtain ⟨hql, hqe⟩ := List.mem_filter.mp hq
    exact ⟨q, hql, hqe, he.symm⟩
  · rintro ⟨q, hql, hqe, he⟩
    exact List.mem_map.mpr ⟨q, List.mem_filter.mpr ⟨hql, hqe⟩, he.symm⟩

theorem edgesOf_append (l₁ l₂ : List (ConnectionKey × ConnectionGene)) :
    edgesOf (l₁ ++ l₂) = edgesOf l₁ ++ edgesOf l₂ := by
  unfold edgesOf
  rw [List.filter_append, List.map_append]

theorem edges_aupdate_weight_sub (k : ConnectionKey) (w : ℚ)
    (l : List (ConnectionKey × ConnectionGene)) :
    ∀ e : ℤ × ℤ,
      e ∈ edgesOf (aupdate k (fun c => { c with weight := w }) l) →
        e ∈ edgesOf l := by
  intro e he
  obtain ⟨q, hql, hqe, hee⟩ := mem_edgesOf_iff.mp he
  rcases mem_aupdate hql with hq | ⟨v, hv, hqv⟩
  · exact mem_edgesOf_iff.mpr ⟨q, hq, hqe, hee⟩
  · subst hqv
    exact mem_edgesOf_iff.mpr ⟨(k, v), hv, hqe, hee⟩

theorem edges_aupdate_weight_sup (k : ConnectionKey) (w : ℚ)
    (l : List (ConnectionKey × ConnectionGene)) :
    ∀ e : ℤ × ℤ, e ∈ edgesOf l →
      e ∈ edgesOf (aupdate k (fun c => { c with weight := w }) l) := by
  intro e he
  obtain ⟨q, hql, hqe, hee⟩ := mem_edgesOf_iff.mp he
  have hm : (if q.1 = k then (q.1, { q.2 with weight := w }) else q) ∈
      aupdate k (fun c => { c with weight := w }) l :=
    List.mem_map_of_mem _ hql
  by_cases hk : q.1 = k
  · rw [if_pos hk] at hm
    exact mem_edgesOf_iff.mpr ⟨_, hm, hqe, hee⟩
  · rw [if_neg hk] at hm
    exact mem_edgesOf_iff.mpr ⟨q, hm, hqe, hee⟩

theorem edges_aupdate_enabled_sub (k : ConnectionKey) (b : Bool)
    (l : List (ConnectionKey × ConnectionGene)) :
    ∀ e : ℤ × ℤ,
      e ∈ edgesOf (aupdate k (fun c => { c with enabled := b }) l) →
        e ∈ edgesOf l ∨ e = (k.inNodeID, k.outNodeID) := by
  intro e he
  obtain ⟨q, hql, hqe, hee⟩ := mem_edgesOf_iff.mp he
  rcases mem_aupdate hql with hq | ⟨v, hv, hqv⟩
  · exact Or.inl (mem_edgesOf_iff.mpr ⟨q, hq, hqe, hee⟩)
  · subst hqv
    exact Or.inr hee

theorem edges_aupdate_enabled_true_sup (k : ConnectionKey)
    (l : List (ConnectionKey × ConnectionGene)) :
    ∀ e : ℤ × ℤ, e ∈ edgesOf l →
      e ∈ edgesOf (aupdate k (fun c => { c with enabled := true }) l) := by
  intro e he
  obtain ⟨q, hql, hqe, hee⟩ := mem_edgesOf_iff.mp he
  have hm : (if q.1 = k then (q.1, { q.2 with enabled := true }) else q) ∈
      aupdate k (fun c => { c with enabled := true }) l :=
    List.mem_map_of_mem _ hql
  by_cases hk : q.1 = k
  · rw [if_pos hk] at hm
    exact mem_edgesOf_iff.mpr ⟨_, hm, rfl, hee⟩
  · rw [if_neg hk] at hm
    exact mem_edgesOf_iff.mpr ⟨q, hm, hqe, hee⟩

theorem edges_aupdate_enabled_false_sub (k : ConnectionKey)
    (l : List (ConnectionKey × ConnectionGene)) :
    ∀ e : ℤ × ℤ,
      e ∈ edgesOf (aupdate k (fun c => { c with enabled := false }) l) →
        e ∈ edgesOf l := by
  intro e he
  obtain ⟨q, hql, hqe, hee⟩ := mem_edgesOf_iff.mp he
  rcases mem_aupdate hql with hq | ⟨v, hv, hqv⟩
  · exact mem_edgesOf_iff.mpr ⟨q, hq, hqe, hee⟩
  · subst hqv
    cases hqe

theorem mem_connSuccessors {g : Genome} {v w : ℤ} :
    w ∈ connSuccessors g v ↔ (v, w) ∈ enabledEdges g := by
  unfold connSuccessors enabledEdges edgesOf
  constructor
  · intro h
    obtain ⟨p, hp, he⟩ := List.mem_filterMap.mp h
    by_cases hc : p.2.enabled = true ∧ p.1.inNodeID = v
    · rw [if_pos hc] at he
      obtain rfl := Option.some.inj he
      refine List.mem_map.mpr ⟨p, List.mem_filter.mpr ⟨hp, hc.1⟩, ?_⟩
      rw [hc.2]
    · rw [if_neg hc] at he
      cases he
  · intro h
    obtain ⟨p, hpf, he⟩ := List.mem_map.mp h
    obtain ⟨hp, hpe⟩ := List.mem_filter.mp hpf
    refine List.mem_filterMap.mpr ⟨p, hp, ?_⟩
    rw [if_pos ⟨hpe, congrArg Prod.fst he⟩]
    exact congrArg (fun q => some (q : ℤ × ℤ).2) he

/-- Every node the BFS can ever enqueue: the start node plus the target
of every connection. -/
def bfsUniverse (g : Genome) (outN : ℤ) : List ℤ :=
  outN :: g.connections.map
    (fun p => (p : ConnectionKey × ConnectionGene).1.outNodeID)

theorem succ_sub_universe {g : Genome} {v w outN : ℤ}
    (h : w ∈ connSuccessors g v) : w ∈ bfsUniverse g outN := by
  obtain ⟨p, hp, he⟩ := List.mem_filterMap.mp h
  by_cases hc : p.2.enabled = true ∧ p.1.inNodeID = v
  · rw [if_pos hc] at he
    obtain rfl := Option.some.inj he
    exact List.mem_cons_of_mem _ (List.mem_map_of_mem _ hp)
  · rw [if_neg hc] at he
    cases he

theorem succ_length_le (g : Genome) (v : ℤ) :
    (connSuccessors g v).length ≤ g.connections.length :=
  List.length_filterMap_le _ _

/-- Reachability whose every node after the first avoids `A`. -/
inductive ReachA (E : List (ℤ × ℤ)) (A : List ℤ) : ℤ → ℤ → Prop where
  | refl (x : ℤ) : ReachA E A x x
  | head {x y z : ℤ} : (x, y) ∈ E → ¬ y ∈ A → ReachA E A y z →
      ReachA E A x z

theorem reach_to_reachA {E : List (ℤ × ℤ)} {x y : ℤ}
    (h : Reach E x y) : ReachA E [] x y := by
  induction h using Relation.ReflTransGen.head_induction_on with
  | refl => exact ReachA.refl _
  | head hab hrest ih =>
    exact ReachA.head hab (List.not_mem_nil _) ih

theorem reachA_extend {E : List (ℤ × ℤ)} {A : List ℤ} {c : ℤ}
    {z inN : ℤ} (h : ReachA E A z inN) (hne : ¬ inN = c) :
    ReachA E (c :: A) z inN ∨
      ∃ w, (c, w) ∈ E ∧ ¬ w ∈ c :: A ∧ ReachA E (c :: A) w inN := by
  induction h with
  | refl x => exact Or.inl (ReachA.refl x)
  | head hxy hyA hyz ih =>
    rcases ih hne with hL | hR
    · rename_i x y zz
      by_cases hyc : y = c
      · subst hyc
        cases hL with
        | refl => exact absurd rfl hne
        | head hcw hwA hwz => exact Or.inr ⟨_, hcw, hwA, hwz⟩
      · refine Or.inl (ReachA.head hxy ?_ hL)
        intro hm
        rcases List.mem_cons.mp hm with h1 | h1
        · exact hyc h1
        · exact hyA h1
    · exact Or.inr hR

theorem bfs_complete (g : Genome) (inN outN : ℤ) :
    ∀ (fuel : ℕ) (visited queue : List ℤ),
      visited.Nodup →
      (∀ v ∈ visited, v ∈ bfsUniverse g outN) →
      (∀ q ∈ queue, q ∈ bfsUniverse g outN) →
      (∀ v ∈ visited, ∀ w, w ∈ connSuccessors g v →
        w ∈ visited ∨ w ∈ queue) →
      ¬ inN ∈ visited →
      ((bfsUniverse g outN).toFinset.card - visited.toFinset.card) *
          (g.connections.length + 1) + queue.length ≤ fuel →
      (∃ z ∈ queue, ReachA (enabledEdges g) visited z inN) →
      bfsVisit g inN visited queue fuel = true := by
  intro fuel
  induction fuel with
  | zero =>
    intro visited queue _ _ _ _ _ hφ hex
    obtain ⟨z, hz, _⟩ := hex
    have : queue.length = 0 := by omega
    rw [List.length_eq_zero] at this
    subst this
    cases hz
  | succ f ih =>
    intro visited queue hnd hvU hqU hInv hinN hφ hex
    cases queue with
    | nil =>
      obtain ⟨z, hz, _⟩ := hex
      cases hz
    | cons current rest =>
      by_cases hcur : current = inN
      · simp [bfsVisit, hcur]
      · by_cases hvis : current ∈ visited
        · have hred : bfsVisit g inN visited (current :: rest) (f + 1) =
              bfsVisit g inN visited rest f := by
            simp only [bfsVisit]
            rw [if_neg hcur, if_pos hvis]
          rw [hred]
          refine ih visited rest hnd hvU
            (fun q hq => hqU q (List.mem_cons_of_mem _ hq)) ?_ hinN ?_ ?_
          · intro v hv w hw
            rcases hInv v hv w hw with h1 | h1
            · exact Or.inl h1
            · rcases List.mem_cons.mp h1 with h2 | h2
              · exact Or.inl (h2 ▸ hvis)
              · exact Or.inr h2
          · have hlen : (current :: rest).length = rest.length + 1 := rfl
            rw [hlen] at hφ
            generalize hP :
              ((bfsUniverse g outN).toFinset.card -
                visited.toFinset.card) * (g.connections.length + 1) = P
                at hφ ⊢
            omega
          · obtain ⟨z, hz, hreach⟩ := hex
            rcases List.mem_cons.mp hz with rfl | hzr
            · cases hreach with
              | refl => exact absurd rfl hcur
              | head hxy hyA hyz =>
                rename_i y
                have hys : y ∈ connSuccessors g z :=
                  mem_connSuccessors.mpr hxy
                rcases hInv z hvis y hys with h1 | h1
                · exact absurd h1 hyA
                · rcases List.mem_cons.mp h1 with h2 | h2
                  · exact absurd (h2 ▸ hvis) hyA
                  · exact ⟨y, h2, hyz⟩
            · exact ⟨z, hzr, hreach⟩
        · have hred : bfsVisit g inN visited (current :: rest) (f + 1) =
              bfsVisit g inN (current :: visited)
                (rest ++ connSuccessors g current) f := by
            simp only [bfsVisit]
            rw [if_neg hcur, if_neg hvis]
          rw [hred]
          have hcU : current ∈ bfsUniverse g outN :=
            hqU current (List.mem_cons_self _ _)
          refine ih (current :: visited)
            (rest ++ connSuccessors g current)
            (List.nodup_cons.mpr ⟨hvis, hnd⟩) ?_ ?_ ?_ ?_ ?_ ?_
          · intro v hv
            rcases List.mem_cons.mp hv with rfl | h1
            · exact hcU
            · exact hvU v h1
          · intro q hq
            rcases List.mem_append.mp hq with h1 | h1
            · exact hqU q (List.mem_cons_of_mem _ h1)
            · exact succ_sub_universe h1
          · intro v hv w hw
            rcases List.mem_cons.mp hv with rfl | h1
            · exact Or.inr (List.mem_append_right _ hw)
            · rcases hInv v h1 w hw with h2 | h2
              · exact Or.inl (List.mem_cons_of_mem _ h2)
              · rcases List.mem_cons.mp h2 with h3 | h3
                · exact Or.inl (h3 ▸ List.mem_cons_self _ _)
                · exact Or.inr (List.mem_append_left _ h3)
          · intro hm
            rcases List.mem_cons.mp hm with h1 | h1
            · exact hcur h1.symm
            · exact hinN h1
          · have hsub : visited.toFinset ⊆
                (bfsUniverse g outN).toFinset := by
              intro x hx
              exact List.mem_toFinset.mpr (hvU x (List.mem_toFinset.mp hx))
            have hcV : current ∉ visited.toFinset := by
              intro hx
              exact hvis (List.mem_toFinset.mp hx)
            have hins : (current :: visited).toFinset =
                insert current visited.toFinset := List.toFinset_cons
            have hcard : (current :: visited).toFinset.card =
                visited.toFinset.card + 1 := by
              rw [hins, Finset.card_insert_of_not_mem hcV]
            have hle : visited.toFinset.card + 1 ≤
                (bfsUniverse g outN).toFinset.card := by
              have : insert current visited.toFinset ⊆
                  (bfsUniverse g outN).toFinset := by
                intro x hx
                rcases Finset.mem_insert.mp hx with rfl | h1
                · exact List.mem_toFinset.mpr hcU
                · exact hsub h1
              have := Finset.card_le_card this
              rwa [Finset.card_insert_of_not_mem hcV] at this
            have hDD : (bfsUniverse g outN).toFinset.card -
                visited.toFinset.card =
                ((bfsUniverse g outN).toFinset.card -
                  (visited.toFinset.card + 1)) + 1 := by omega
            rw [hDD, Nat.succ_mul] at hφ
            rw [hcard, List.length_append]
            have hs : (connSuccessors g current).length ≤
                g.connections.length := succ_length_le g current
            have hlen : (current :: rest).length = rest.length + 1 := rfl
            rw [hlen] at hφ
            generalize hP :
              ((bfsUniverse g outN).toFinset.card -
                (visited.toFinset.card + 1)) *
                (g.connections.length + 1) = P at hφ ⊢
            omega
          · obtain ⟨z, hz, hreach⟩ := hex
            have hne : ¬ inN = current := fun h => hcur h.symm
            rcases reachA_extend hreach hne with hL | ⟨w, hcw, hwA, hwz⟩
            · rcases List.mem_cons.mp hz with rfl | hzr
              · cases hL with
                | refl => exact absurd rfl hcur
                | head hcy hyA hyz =>
                  rename_i y
                  exact ⟨y, List.mem_append_right _
                    (mem_connSuccessors.mpr hcy), hyz⟩
              · exact ⟨z, List.mem_append_left _ hzr, hL⟩
            · exact ⟨w, List.mem_append_right _
                (mem_connSuccessors.mpr hcw), hwz⟩

theorem createsCycle_false (g : Genome) (inN outN : ℤ)
    (h : createsCycle g inN outN = false) :
    ¬ inN = outN ∧ ¬ Reach (enabledEdges g) outN inN := by
  unfold createsCycle at h
  by_cases he : inN = outN
  · rw [if_pos he] at h
    cases h
  · rw [if_neg he] at h
    refine ⟨he, fun hr => ?_⟩
    have hU : ((bfsUniverse g outN).toFinset.card - 0) *
        (g.connections.length + 1) + 1 ≤ bfsFuel g := by
      have h1 : (bfsUniverse g outN).toFinset.card ≤
          g.connections.length + 1 := by
        have := List.toFinset_card_le (bfsUniverse g outN)
        have h2 : (bfsUniverse g outN).length =
            g.connections.length + 1 := by
          unfold bfsUniverse
          rw [List.length_cons, List.length_map]
        omega
      unfold bfsFuel
      have := Nat.mul_le_mul_right (g.connections.length + 1) h1
      rw [Nat.sub_zero]
      omega
    have := bfs_complete g inN outN (bfsFuel g) [] [outN]
      List.nodup_nil (fun v hv => absurd hv (List.not_mem_nil v))
      (fun q hq => by
        rw [List.mem_singleton.mp hq]
        exact List.mem_cons_self _ _)
      (fun v hv => absurd hv (List.not_mem_nil v))
      (List.not_mem_nil inN)
      (by simpa using hU)
      ⟨outN, List.mem_singleton_self outN, reach_to_reachA hr⟩
    rw [h] at this
    cases this

theorem mutateBool_true_cases (value : Bool) (mr rt rf : ℚ) (ff : Bool)
    (g : Genome) (k : ConnectionKey) (rng : Rng)
    (h : (mutateBoolAttribute value mr rt rf ff g k rng).1 = true) :
    value = true ∨ ff = false ∨
      createsCycle g k.inNodeID k.outNodeID = false := by
  cases value with
  | true => exact Or.inl rfl
  | false =>
    cases ff with
    | false => exact Or.inr (Or.inl rfl)
    | true =>
      refine Or.inr (Or.inr ?_)
      cases hcc : createsCycle g k.inNodeID k.outNodeID with
      | false => rfl
      | true =>
        exfalso
        simp only [mutateBoolAttribute, hcc, eq_self_iff_true, if_true,
          Bool.false_eq_true, if_false, not_false_iff, true_and,
          and_true] at h
        split at h
        · split at h
          · split at h
            · simp at h
            · rename_i hg2
              exact hg2 (of_decide_eq_true h)
          · simp at h
        · simp at h

theorem connMutateIn_conns_acyc (cfg : GenomeConfig) (g : Genome)
    (k : ConnectionKey) (rng : Rng) :
    (ConnectionGeneMutateIn cfg g k rng).1.connections = g.connections ∨
      ∃ (cg : ConnectionGene) (w : ℚ) (b : Bool),
        alookup k g.connections = some cg ∧
        (ConnectionGeneMutateIn cfg g k rng).1.connections =
          aupdate k (fun c => { c with enabled := b })
            (aupdate k (fun c => { c with weight := w }) g.connections) ∧
        (b = true → cg.enabled = true ∨ cfg.feedForward = false ∨
          createsCycle
            { g with connections :=
              aupdate k (fun c => { c with weight := w }) g.connections }
            k.inNodeID k.outNodeID = false) := by
  unfold ConnectionGeneMutateIn
  cases hlk : alookup k g.connections with
  | none => exact Or.inl rfl
  | some cg =>
    refine Or.inr ⟨cg,
      (mutateFloatAttribute cg.weight cfg.weightMutateRate
        cfg.weightReplaceRate cfg.weightMutatePower cfg.weightInitMean
        cfg.weightInitStdev cfg.weightInitType cfg.weightMinValue
        cfg.weightMaxValue rng).1,
      (mutateBoolAttribute cg.enabled cfg.enabledMutateRate
        cfg.enabledRateToTrueAdd cfg.enabledRateToFalseAdd
        cfg.feedForward
        (Genome.mk g.key g.nodes
          (aupdate k
            (fun c2 => ConnectionGene.mk c2.key
              (mutateFloatAttribute cg.weight cfg.weightMutateRate
                cfg.weightReplaceRate cfg.weightMutatePower
                cfg.weightInitMean cfg.weightInitStdev cfg.weightInitType
                cfg.weightMinValue cfg.weightMaxValue rng).1 c2.enabled)
            g.connections)
          g.fitness)
        k
        (mutateFloatAttribute cg.weight cfg.weightMutateRate
          cfg.weightReplaceRate cfg.weightMutatePower cfg.weightInitMean
          cfg.weightInitStdev cfg.weightInitType cfg.weightMinValue
          cfg.weightMaxValue rng).2).1,
      rfl, rfl, ?_⟩
    intro hb
    rcases mutateBool_true_cases _ _ _ _ _ _ _ _ hb with h1 | h1 | h1
    · exact Or.inl h1
    · exact Or.inr (Or.inl h1)
    · exact Or.inr (Or.inr h1)

theorem connMutateIn_acyclic (cfg : GenomeConfig) (g : Genome)
    (k : ConnectionKey) (rng : Rng) (hff : cfg.feedForward = true)
    (hg : EnabledAcyclic g) :
    EnabledAcyclic (ConnectionGeneMutateIn cfg g k rng).1 := by
  rcases connMutateIn_conns_acyc cfg g k rng with
    hc | ⟨cg, w, b, hlk, hc, hprop⟩
  · unfold EnabledAcyclic enabledEdges
    rw [hc]
    exact hg
  · unfold EnabledAcyclic enabledEdges
    rw [hc]
    have hAcy₁ : AcyclicE
        (edgesOf (aupdate k (fun c => { c with weight := w })
          g.connections)) :=
      acyclic_of_subset (edges_aupdate_weight_sub k w g.connections) hg
    cases hb : b with
    | false =>
      exact acyclic_of_subset (edges_aupdate_enabled_false_sub k _) hAcy₁
    | true =>
      rcases hprop hb with hen | hfff | hcc
      · refine acyclic_of_subset (fun e he => ?_) hAcy₁
        rcases edges_aupdate_enabled_sub k true _ e he with h1 | h1
        · exact h1
        · subst h1
          have hm : (k, { cg with weight := w }) ∈
              aupdate k (fun c => { c with weight := w }) g.connections := by
            unfold aupdate
            refine List.mem_map.mpr ⟨(k, cg), mem_alookup hlk, ?_⟩
            simp
          exact mem_edgesOf_iff.mpr ⟨(k, { cg with weight := w }), hm,
            hen, rfl⟩
      · rw [hff] at hfff
        cases hfff
      · obtain ⟨hne, hnr⟩ := createsCycle_false _ _ _ hcc
        exact acyclic_insert (edges_aupdate_enabled_true_sup k _)
          (edges_aupdate_enabled_sub k true _) hAcy₁ hnr hne

theorem bool_eq_false_of_not_and {a c : Bool} (hff : a = true)
    (h : ¬ (a = true ∧ c = true)) : c = false := by
  cases c with
  | false => rfl
  | true => exact absurd ⟨hff, rfl⟩ h

theorem acyclic_ainsert_guarded (g : Genome) (key : ConnectionKey)
    (v : ConnectionGene)
    (h2 : ¬ (alookup key g.connections).isSome = true)
    (hg : EnabledAcyclic g)
    (hne : ¬ key.inNodeID = key.outNodeID)
    (hnr : ¬ Reach (enabledEdges g) key.outNodeID key.inNodeID) :
    AcyclicE (edgesOf (ainsert key v g.connections)) := by
  unfold ainsert
  rw [if_neg h2, edgesOf_append]
  cases hv : v.enabled with
  | false =>
    have hemp : edgesOf [(key, v)] = [] := by
      simp [edgesOf, hv]
    rw [hemp, List.append_nil]
    exact hg
  | true =>
    have hone : edgesOf [(key, v)] = [(key.inNodeID, key.outNodeID)] := by
      simp [edgesOf, hv]
    rw [hone]
    refine acyclic_insert (fun p hp => List.mem_append_left _ hp)
      (fun p hp => ?_) hg hnr hne
    rcases List.mem_append.mp hp with h1 | h1
    · exact Or.inl h1
    · exact Or.inr (List.mem_singleton.mp h1)

theorem addConnAttempts_acyclic (cfg : GenomeConfig) (g : Genome)
    (pin pout : List ℤ) (hff : cfg.feedForward = true)
    (hg : EnabledAcyclic g) :
    ∀ (n : ℕ) (rng : Rng),
      EnabledAcyclic (addConnAttempts cfg g pin pout n rng).1 := by
  intro n
  induction n with
  | zero => intro rng; exact hg
  | succ n ih =>
    intro rng
    simp only [addConnAttempts]
    split
    · exact ih _
    · split
      · exact ih _
      · split
        · exact ih _
        · rename_i h2 h3
          have hcc := bool_eq_false_of_not_and hff h3
          obtain ⟨hne, hnr⟩ := createsCycle_false _ _ _ hcc
          exact acyclic_ainsert_guarded g _ _ h2 hg hne hnr

theorem mutateAddConnection_acyclic (cfg : GenomeConfig) (g : Genome)
    (rng : Rng) (hff : cfg.feedForward = true)
    (hg : EnabledAcyclic g) :
    EnabledAcyclic (mutateAddConnection cfg g rng).1 := by
  simp only [mutateAddConnection]
  split
  · exact hg
  · exact addConnAttempts_acyclic cfg g _ _ hff hg _ _

theorem acyclic_single_edge (a b : ℤ) (hne : ¬ b = a) :
    AcyclicE [(a, b)] := by
  intro e he hr
  rw [List.mem_singleton] at he
  subst he
  rcases Relation.ReflTransGen.cases_head hr with h1 | ⟨z, hz, _⟩
  · exact hne h1
  · have h2 : ((b, z) : ℤ × ℤ) = (a, b) := List.mem_singleton.mp hz
    exact hne (congrArg Prod.fst h2)

/-- Feed-forward config asking for one hidden node and the
`full_nodirect` initial-connection scheme. -/
def cfgInitC2 : GenomeConfig :=
  { baseConfig with numHidden := 1, initialConnection := "full_nodirect" }

/-- A plain node gene (bias 0, response 1, defaults). -/
def nodeC2 (key : ℤ) : NodeGene := ⟨key, 0, 1, "identity", "sum"⟩

/-- Disabled connection `0→1` plus enabled `1→0`: acyclic (only `1→0`
is enabled), but splitting the disabled gene re-enables its endpoints
through the new node. -/
def gSplitC2 : Genome :=
  ⟨0, [(0, nodeC2 0), (1, nodeC2 1)],
    [(⟨0, 1⟩, ⟨⟨0, 1⟩, 1, false⟩), (⟨1, 0⟩, ⟨⟨1, 0⟩, 1, true⟩)], 0⟩

/-- Config whose node-key counter starts at `2` (nodes 0 and 1 exist). -/
def cfgSplitC2 : GenomeConfig := { baseConfig with nodeKeyIndex := 2 }

/-- Parent with `0→1` enabled, `1→0` disabled. -/
def pCrossA : Genome :=
  ⟨1, [(0, nodeC2 0), (1, nodeC2 1)],
    [(⟨0, 1⟩, ⟨⟨0, 1⟩, 1, true⟩), (⟨1, 0⟩, ⟨⟨1, 0⟩, 1, false⟩)], 0⟩

/-- Parent with `0→1` disabled, `1→0` enabled. -/
def pCrossB : Genome :=
  ⟨2, [(0, nodeC2 0), (1, nodeC2 1)],
    [(⟨0, 1⟩, ⟨⟨0, 1⟩, 1, false⟩), (⟨1, 0⟩, ⟨⟨1, 0⟩, 1, true⟩)], 0⟩

/-- Claim C2 (counterexample): three of the named operations do NOT
preserve acyclicity of the enabled subgraph. (1) `ConfigureNew` with
`full_nodirect` and one hidden node creates the enabled self-loop `1→1`
(hidden×hidden is connected without any cycle check). (2) `mutateAddNode`
splits a connection chosen among ALL connections, including disabled
ones: splitting disabled `0→1` in a genome whose only enabled edge is
`1→0` adds enabled `0→2`,`2→1`, closing the cycle `0→2→1→0`. (3)
`ConfigureCrossover` of two acyclic parents (one with `0→1` enabled,
the other with `1→0` enabled) can inherit both flags enabled — no cycle
check runs — yielding the two-cycle `0⇄1`. -/
theorem unguarded_ops_break_enabled_acyclic :
    (cfgInitC2.feedForward = true ∧
      ¬ EnabledAcyclic (ConfigureNew cfgInitC2 0 ⟨[], []⟩).1) ∧
    (cfgSplitC2.feedForward = true ∧ EnabledAcyclic gSplitC2 ∧
      ¬ EnabledAcyclic (mutateAddNode cfgSplitC2 gSplitC2 ⟨[], []⟩).1) ∧
    (EnabledAcyclic pCrossA ∧ EnabledAcyclic pCrossB ∧
      ¬ EnabledAcyclic
        (ConfigureCrossover (NewGenome 3) pCrossA pCrossB
          ⟨[9/10, 9/10, 9/10, 1/10], []⟩).1) := by
  refine ⟨⟨rfl, ?_⟩, ⟨rfl, ?_, ?_⟩, ?_, ?_, ?_⟩
  · intro hAc
    have h₁ : enabledEdges (ConfigureNew cfgInitC2 0 ⟨[], []⟩).1 =
        [(-1, 1), (-2, 1), (1, 1), (1, 0)] := by rfl
    unfold EnabledAcyclic at hAc
    rw [h₁] at hAc
    exact hAc (1, 1) (by decide) Relation.ReflTransGen.refl
  · have h₂ : enabledEdges gSplitC2 = [(1, 0)] := rfl
    unfold EnabledAcyclic
    rw [h₂]
    exact acyclic_single_edge 1 0 (by decide)
  · intro hAc
    have h₃ : enabledEdges (mutateAddNode cfgSplitC2 gSplitC2 ⟨[], []⟩).1 =
        [(1, 0), (0, 2), (2, 1)] := by rfl
    unfold EnabledAcyclic at hAc
    rw [h₃] at hAc
    refine hAc (1, 0) (by decide) ?_
    exact Relation.ReflTransGen.head
      (show ((0 : ℤ), (2 : ℤ)) ∈
        [((1 : ℤ), (0 : ℤ)), (0, 2), (2, 1)] by decide)
      (Relation.ReflTransGen.single
        (show ((2 : ℤ), (1 : ℤ)) ∈
          [((1 : ℤ), (0 : ℤ)), (0, 2), (2, 1)] by decide))
  · have h₄ : enabledEdges pCrossA = [(0, 1)] := rfl
    unfold EnabledAcyclic
    rw [h₄]
    exact acyclic_single_edge 0 1 (by decide)
  · have h₅ : enabledEdges pCrossB = [(1, 0)] := rfl
    unfold EnabledAcyclic
    rw [h₅]
    exact acyclic_single_edge 1 0 (by decide)
  · intro hAc
    have h₆ : enabledEdges
        (ConfigureCrossover (NewGenome 3) pCrossA pCrossB
          ⟨[9/10, 9/10, 9/10, 1/10], []⟩).1 = [(0, 1), (1, 0)] := by
      norm_num [ConfigureCrossover, ConnectionGeneCrossover, NewGenome,
        enabledEdges, edgesOf, ainsert, aupdate, alookup, Rng.nextFloat,
        pCrossA, pCrossB, nodeC2]
    unfold EnabledAcyclic at hAc
    rw [h₆] at hAc
    exact hAc (0, 1) (by decide)
      (Relation.ReflTransGen.single
        (show ((1 : ℤ), (0 : ℤ)) ∈ [((0 : ℤ), (1 : ℤ)), (1, 0)] by decide))

/-- Claim C2 (amended): the two `createsCycle`-guarded operations DO
preserve acyclicity of the enabled subgraph when `feed_forward` is set:
`mutateAddConnection` (each attempt rejects a candidate edge whose
reversal is already reachable) and the connection-gene attribute
mutation `ConnectionGene.Mutate` (whose enabled-flag kernel
`mutateBoolAttribute` re-checks `createsCycle` before flipping a flag to
true). The unguarded operations — initial configuration, `mutateAddNode`
on a disabled connection, and `ConfigureCrossover` — violate it (see the
counterexample), so the claimed invariant does not hold of every
reachable genome. -/
theorem guarded_ops_preserve_enabled_acyclic (cfg : GenomeConfig)
    (g : Genome) (k : ConnectionKey) (rng₁ rng₂ : Rng)
    (hff : cfg.feedForward = true) (hg : EnabledAcyclic g) :
    EnabledAcyclic (mutateAddConnection cfg g rng₁).1 ∧
      EnabledAcyclic (ConnectionGeneMutateIn cfg g k rng₂).1 :=
  ⟨mutateAddConnection_acyclic cfg g rng₁ hff hg,
    connMutateIn_acyclic cfg g k rng₂ hff hg⟩

theorem guarded_ops_preserve_enabled_acyclic_witness :
    baseConfig.feedForward = true ∧ EnabledAcyclic genomeOneConn ∧
      (EnabledAcyclic
          (mutateAddConnection baseConfig genomeOneConn ⟨[], []⟩).1 ∧
        EnabledAcyclic
          (ConnectionGeneMutateIn baseConfig genomeOneConn ⟨-1, 0⟩
            ⟨[], []⟩).1) := by
  have hg : EnabledAcyclic genomeOneConn := by
    have h : enabledEdges genomeOneConn = [(-1, 0)] := rfl
    unfold EnabledAcyclic
    rw [h]
    exact acyclic_single_edge (-1) 0 (by decide)
  exact ⟨rfl, hg, guarded_ops_preserve_enabled_acyclic baseConfig
    genomeOneConn ⟨-1, 0⟩ ⟨[], []⟩ ⟨[], []⟩ rfl hg⟩
